import Mathlib

/-!
Verification development for `memora`'s Neo4j graph layer
(`src/memora/graph_db/neo4j/interaction.py`).

The store is shallowly embedded as a property graph: one node table per label
(`Interaction`, `MessageBlock`, `Memory`, `Date`) and one edge list per
relationship type (`FIRST_MESSAGE`, `IS_NEXT`, `INTERACTION_SOURCE`,
`MESSAGE_SOURCE`, `HAS_OCCURRENCE_ON`, `CONTRARY_UPDATE`, `INCLUDES`).
All operations of `Neo4jInteraction` act on a single (org_id, user_id) scope,
so the scope keys are left implicit and the single `User` /
`InteractionCollection` / `MemoryCollection` trio is modelled by the flag
`userExists` (the `MATCH (u:User ...)-[:INTERACTIONS_IN]->(ic)` and
`-[:HAS_MEMORIES]->(mc)` clauses succeed iff it is true).

Node identity is minted by `nextId`, standing for Neo4j's internal node ids.
Each Cypher write query becomes a Lean function on this state; each Cypher
read becomes a pure function.  `null` property values (Cypher drops them on
`CREATE`) are `Option`s; a query step that would raise (e.g. `CREATE` against
a `null` endpoint) returns `Except`.  `shortuuid` / `uuid4` identifier
generation is external, so freshly minted ids are taken as parameters.
-/

/-- A Python message dict `{"role": ..., "content": ...}` as passed in
`MemoriesAndInteraction.interaction`. -/
structure MsgDict where
  role : String
  content : String
deriving DecidableEq, Repr

/-- Property map of a `MessageBlock` node.  `msg_position` is always set by the
queries that create blocks; `role`/`content` can be absent because Cypher
silently drops `null` values in a `CREATE` property map. -/
structure BlockProps where
  msg_position : Nat
  role : Option String
  content : Option String
deriving DecidableEq, Repr

/-- Property map of an `Interaction` node (org_id/user_id implicit in the
scope). -/
structure InteractionProps where
  interaction_id : String
  agent_id : String
  created_at : String
  updated_at : String
deriving DecidableEq, Repr

/-- Property map of a `Memory` node (org_id/user_id implicit in the scope). -/
structure MemoryProps where
  memory_id : String
  memory : String
  obtained_at : String
  agent_id : String
  interaction_id : String
deriving DecidableEq, Repr

/-- The structural store restricted to one (org_id, user_id) scope. -/
structure Graph where
  userExists : Bool
  interactions : List (Nat × InteractionProps)
  blocks : List (Nat × BlockProps)
  memories : List (Nat × MemoryProps)
  dates : List (Nat × String)
  /-- `(ic)-[:HAD_INTERACTION]->(interaction)` targets. -/
  hadInteraction : List Nat
  /-- `(interaction)-[:FIRST_MESSAGE]->(block)` edges. -/
  firstMessage : List (Nat × Nat)
  /-- `(block)-[:IS_NEXT]->(block)` edges. -/
  isNext : List (Nat × Nat)
  /-- `(memory)-[:INTERACTION_SOURCE]->(interaction)` edges
  (created as `(interaction)<-[:INTERACTION_SOURCE]-(memory)`). -/
  interactionSource : List (Nat × Nat)
  /-- `(memory)-[:MESSAGE_SOURCE]->(block)` edges
  (created as `(message_node)<-[:MESSAGE_SOURCE]-(memory)`). -/
  messageSource : List (Nat × Nat)
  /-- `(interaction)-[:HAS_OCCURRENCE_ON]->(date)` edges. -/
  hasOccurrenceOn : List (Nat × Nat)
  /-- `(old_memory)-[:CONTRARY_UPDATE]->(new_contrary_memory)` edges. -/
  contraryUpdate : List (Nat × Nat)
  /-- `(mc)-[:INCLUDES]->(memory)` targets. -/
  includes : List Nat
  nextId : Nat
deriving DecidableEq, Repr

/-- The empty store for one scope whose `User` and its two collections exist
(the state right after `create_user`). -/
def freshGraph : Graph :=
  { userExists := true, interactions := [], blocks := [], memories := []
    dates := [], hadInteraction := [], firstMessage := [], isNext := []
    interactionSource := [], messageSource := [], hasOccurrenceOn := []
    contraryUpdate := [], includes := [], nextId := 0 }

/-- Cypher `RANGE(a, b)`: the inclusive integer range, empty when `b < a`.
(All ranges the queries build have non-negative endpoints, so `Nat` suffices:
e.g. `RANGE(1, SIZE(msgs) - 1)` is rendered as `cypherRange 1 (msgs.length - 1)`,
which is empty for `msgs = []` exactly like `RANGE(1, -1)`.) -/
def cypherRange (a b : Nat) : List Nat :=
  (List.range' a (b + 1 - a))

/-- The consecutive pairing `UNWIND RANGE(1, SIZE(nodeList) - 1) AS idx ...
(nodeList[idx - 1])-[:IS_NEXT]->(nodeList[idx])` used to chain a node list. -/
def chainLinks (l : List Nat) : List (Nat × Nat) :=
  l.zip l.tail

/-- `MATCH (interaction:Interaction {interaction_id: $interaction_id})`. -/
def findInteraction (g : Graph) (iid : String) : Option Nat :=
  (g.interactions.find? (fun p => p.2.interaction_id == iid)).map (·.1)

/-- Property lookup of a `MessageBlock` node by node id. -/
def findBlock (g : Graph) (b : Nat) : Option BlockProps :=
  (g.blocks.find? (fun p => p.1 == b)).map (·.2)

/-- Targets of the `FIRST_MESSAGE` edges leaving an interaction node. -/
def firstEdges (g : Graph) (inode : Nat) : List Nat :=
  (g.firstMessage.filter (fun e => e.1 == inode)).map (·.2)

/-- Targets of the `IS_NEXT` edges leaving a block node. -/
def nextTargets (g : Graph) (b : Nat) : List Nat :=
  (g.isNext.filter (fun e => e.1 == b)).map (·.2)

/-- Follow `IS_NEXT` from a block, collecting the visited blocks.  On the
well-formed states the queries produce, `IS_NEXT` is functional, so this
enumerates the unique maximal path — the row set of the variable-length
pattern `-[r:FIRST_MESSAGE|IS_NEXT*]->(m)` in increasing path length. -/
def walkFrom (g : Graph) : Nat → Nat → List Nat
  | 0, b => [b]
  | fuel + 1, b =>
    b :: (match nextTargets g b with
      | [] => []
      | c :: _ => walkFrom g fuel c)

/-- All blocks of an interaction's message chain, head to tail: the pattern
`(interaction)-[r:FIRST_MESSAGE|IS_NEXT*]->(m:MessageBlock)` (at least one
hop, so an interaction without a `FIRST_MESSAGE` edge yields no rows). -/
def interactionWalk (g : Graph) (inode : Nat) : List Nat :=
  match firstEdges g inode with
  | [] => []
  | b :: _ => walkFrom g g.blocks.length b

/-- `get_interaction_messages` (interaction.py:289-314): returns `m{.*}`, the
full property map of every chain block, in chain order; `[]` when the
interaction or its chain is absent. -/
def get_interaction_messages (g : Graph) (iid : String) : List BlockProps :=
  match findInteraction g iid with
  | none => []
  | some inode => (interactionWalk g inode).filterMap (findBlock g)

/-- Property map of the block created for index `k`:
`{msg_position: k, role: $messages[k].role, content: $messages[k].content}`
(out-of-range list access and property access on `null` give `null`). -/
def mkBlockProps (messages : List MsgDict) (k : Nat) : BlockProps :=
  { msg_position := k
    role := (messages.get? k).map (·.role)
    content := (messages.get? k).map (·.content) }

/-- `_add_messages_to_interaction_from_top` (interaction.py:14-42).
`msg1` (position 0) is created unconditionally — for `messages = []` its
`role`/`content` are the `null` value `$messages[0].role`, so a degenerate
block with only `msg_position` is stored — then `UNWIND RANGE(1,
SIZE($messages) - 1)` creates the remaining blocks and `chainLinks` wires
`nodeList = [msg1] + nodeList` with `IS_NEXT`. -/
def add_messages_to_interaction_from_top (g : Graph) (iid : String)
    (messages : List MsgDict) : Graph :=
  match findInteraction g iid with
  | none => g
  | some inode =>
    let s := g.nextId
    let newBlocks : List (Nat × BlockProps) :=
      (s, mkBlockProps messages 0) ::
        (cypherRange 1 (messages.length - 1)).map
          (fun idx => (s + idx, mkBlockProps messages idx))
    let nodeIds := newBlocks.map (·.1)
    { g with
      blocks := g.blocks ++ newBlocks
      firstMessage := g.firstMessage ++ [(inode, s)]
      isNext := g.isNext ++ chainLinks nodeIds
      nextId := s + newBlocks.length }

/-- `_append_messages_to_interaction` (interaction.py:44-65).  Finds the tail
block `m` (the reachable block with no outgoing `IS_NEXT`), creates blocks for
`UNWIND RANGE(m.msg_position + 1, SIZE($messages) - 1)` and chains
`nodeList = [m] + nodeList` with `IS_NEXT`.  No rows (missing interaction or
empty chain) leaves the store unchanged. -/
def append_messages_to_interaction (g : Graph) (iid : String)
    (messages : List MsgDict) : Graph :=
  match findInteraction g iid with
  | none => g
  | some inode =>
    match (interactionWalk g inode).getLast? with
    | none => g
    | some m =>
      match findBlock g m with
      | none => g
      | some mp =>
        let idxs := cypherRange (mp.msg_position + 1) (messages.length - 1)
        let s := g.nextId
        let newBlocks : List (Nat × BlockProps) :=
          (List.range idxs.length).map
            (fun j => (s + j, mkBlockProps messages (mp.msg_position + 1 + j)))
        let nodeIds := m :: newBlocks.map (·.1)
        { g with
          blocks := g.blocks ++ newBlocks
          isNext := g.isNext ++ chainLinks nodeIds
          nextId := s + newBlocks.length }

/-- `DETACH DELETE` of a set of nodes: the nodes leave every node table and
every edge incident to one of them is removed. -/
def removeNodes (g : Graph) (ids : List Nat) : Graph :=
  { userExists := g.userExists
    interactions := g.interactions.filter (fun p => !(ids.contains p.1))
    blocks := g.blocks.filter (fun p => !(ids.contains p.1))
    memories := g.memories.filter (fun p => !(ids.contains p.1))
    dates := g.dates.filter (fun p => !(ids.contains p.1))
    hadInteraction := g.hadInteraction.filter (fun n => !(ids.contains n))
    firstMessage := g.firstMessage.filter
      (fun e => !(ids.contains e.1) && !(ids.contains e.2))
    isNext := g.isNext.filter
      (fun e => !(ids.contains e.1) && !(ids.contains e.2))
    interactionSource := g.interactionSource.filter
      (fun e => !(ids.contains e.1) && !(ids.contains e.2))
    messageSource := g.messageSource.filter
      (fun e => !(ids.contains e.1) && !(ids.contains e.2))
    hasOccurrenceOn := g.hasOccurrenceOn.filter
      (fun e => !(ids.contains e.1) && !(ids.contains e.2))
    contraryUpdate := g.contraryUpdate.filter
      (fun e => !(ids.contains e.1) && !(ids.contains e.2))
    includes := g.includes.filter (fun n => !(ids.contains n))
    nextId := g.nextId }

/-- The truncation query of `update_tx` (interaction.py:240-246):
`MATCH (interaction ...)-[r:FIRST_MESSAGE|IS_NEXT*{k}]->(m:MessageBlock)`
reaches the block at position `k - 1` (a path of exactly `k` hops), and
`MATCH (m)-[:IS_NEXT*]->(n) DETACH DELETE n` deletes every block strictly
beyond it — i.e. the walk with its first `k` entries dropped. -/
def truncate_messages_from (g : Graph) (iid : String) (k : Nat) : Graph :=
  match findInteraction g iid with
  | none => g
  | some inode => removeNodes g ((interactionWalk g inode).drop k)

/-- One new-memory input: text plus cited source message positions
(`memora.schema.save_memory_schema.Memory`; the schema module is not under
`src/`, so its fields are taken from spec §6's operation table). -/
structure MemoryObj where
  memory : String
  source_msg_block_pos : List Nat
deriving DecidableEq, Repr

/-- One contrary-memory input: additionally names the superseded memory
(`existing_contrary_memory_id`). -/
structure ContraryMemoryObj where
  memory : String
  source_msg_block_pos : List Nat
  existing_contrary_memory_id : String
deriving DecidableEq, Repr

/-- `memora.schema.save_memory_schema.MemoriesAndInteraction`: the transcript,
its timestamp (kept as the ISO string the source passes around), the new
memories and the contrary memories (schema module not under `src/`; fields as
used by interaction.py and spec §6). -/
structure MemoriesAndInteraction where
  interaction : List MsgDict
  interaction_date : String
  memories : List MemoryObj
  contrary_memories : List ContraryMemoryObj
deriving DecidableEq, Repr

/-- Cypher `date(datetime($d))`: the calendar-date part of an ISO timestamp
(everything before the `T`). -/
def calendarDate (d : String) : String :=
  String.mk (d.data.takeWhile (fun c => c != 'T'))

/-- `MERGE (d:Date {date: date(datetime($date))})`: match the bucket for the
calendar date, creating it only if absent; returns the bucket's node id. -/
def mergeDateNode (g : Graph) (date : String) : Graph × Nat :=
  match g.dates.find? (fun p => p.2 == date) with
  | some p => (g, p.1)
  | none =>
    ({ g with dates := g.dates ++ [(g.nextId, date)], nextId := g.nextId + 1 },
      g.nextId)

/-- First query of `save_tx` (interaction.py:149-171): `MATCH` the user's
interaction collection (no rows when the user is absent), `CREATE` the
interaction with `created_at = updated_at = $interaction_date`, link it into
the collection, `MERGE` its Date bucket and `CREATE` the occurrence edge. -/
def create_interaction_and_date (g : Graph) (iid agentId date : String) :
    Graph :=
  if !g.userExists then g
  else
    let inode := g.nextId
    let g1 := { g with
      interactions := g.interactions ++
        [(inode, { interaction_id := iid, agent_id := agentId
                   created_at := date, updated_at := date })]
      hadInteraction := g.hadInteraction ++ [inode]
      nextId := g.nextId + 1 }
    let gd := mergeDateNode g1 (calendarDate date)
    { gd.1 with hasOccurrenceOn := gd.1.hasOccurrenceOn ++ [(inode, gd.2)] }

/-- Creation of a single `Memory` node by
`_add_memories_with_their_source_links`: the node, its `INTERACTION_SOURCE`
edge, its `INCLUDES` edge from the memory collection, and one
`MESSAGE_SOURCE` edge per cited source position into the collected message
list.  A position beyond the collected messages makes `messages[pos]` `null`
and the `CREATE` of an edge to `null` raises. -/
def createMemoryNode (inode : Nat) (iid agentId date : String)
    (msgs : List Nat) (g : Graph) (t : String × String × List Nat) :
    Except Unit Graph :=
  match t.2.2.mapM (fun pos => msgs.get? pos) with
  | none => .error ()
  | some srcs =>
    .ok { g with
      memories := g.memories ++
        [(g.nextId, { memory_id := t.1, memory := t.2.1, obtained_at := date
                      agent_id := agentId, interaction_id := iid })]
      interactionSource := g.interactionSource ++ [(g.nextId, inode)]
      includes := g.includes ++ [g.nextId]
      messageSource := g.messageSource ++ srcs.map (fun b => (g.nextId, b))
      nextId := g.nextId + 1 }

/-- `_add_memories_with_their_source_links` (interaction.py:67-113).  The
query first matches the interaction's message chain (at least one block) and
the user's memory collection — no rows means nothing is created — then per
`(memory_id, memory, source positions)` tuple creates a `Memory` node linked
to the interaction, the collection and its source messages. -/
def add_memories_with_their_source_links (g : Graph) (iid agentId : String)
    (mi : MemoriesAndInteraction) (newIds newContraryIds : List String) :
    Except Unit Graph :=
  match findInteraction g iid with
  | none => .ok g
  | some inode =>
    let msgs := interactionWalk g inode
    if msgs.isEmpty || !g.userExists then .ok g
    else
      let tuples := (newIds ++ newContraryIds).zip
        ((mi.memories.map (fun m => (m.memory, m.source_msg_block_pos))) ++
         (mi.contrary_memories.map
            (fun m => (m.memory, m.source_msg_block_pos))))
      tuples.foldlM
        (fun h t => createMemoryNode inode iid agentId mi.interaction_date
          msgs h t) g

/-- One `MERGE (new_contrary_memory)<-[:CONTRARY_UPDATE]-(old_memory)` step:
both memories are matched by `memory_id`; the edge is created only when it
does not already exist (relationship `MERGE` is an upsert). -/
def mergeContraryLink (g : Graph) (p : String × String) : Graph :=
  match (g.memories.find? (fun q => q.2.memory_id == p.1)).map (·.1),
        (g.memories.find? (fun q => q.2.memory_id == p.2)).map (·.1) with
  | some newNode, some oldNode =>
    if g.contraryUpdate.contains (oldNode, newNode) then g
    else { g with contraryUpdate := g.contraryUpdate ++ [(oldNode, newNode)] }
  | _, _ => g

/-- `_link_update_contrary_memories_to_existing_memories`
(interaction.py:115-130): `UNWIND` over the
`(new contrary memory id, existing memory id)` pairs, `MERGE`-ing one
supersession edge per pair. -/
def link_update_contrary_memories_to_existing_memories (g : Graph)
    (pairs : List (String × String)) : Graph :=
  pairs.foldl mergeContraryLink g

/-- Neo4j managed write transaction (`session.execute_write`), the external
transaction runner the source delegates atomicity to.  Modelled from the
spec: any failure inside the unit of work aborts the whole transaction —
nothing of it persists — and the failure is re-raised; on success the new
state is committed.  Returns the resulting store and the success flag. -/
def executeWrite (g : Graph) (tx : Graph → Except Unit Graph) : Graph × Bool :=
  match tx g with
  | .ok g1 => (g1, true)
  | .error _ => (g, false)

/-- `save_tx` (interaction.py:146-193): create the interaction and its Date
bucket, build the chain from the top, then — when there are memories — create
them, link the contrary ones, and synchronously invoke the external
vector-index add callback (`cbOk = false` makes the callback raise, which
propagates out of the transaction function). -/
def save_tx (iid agentId : String) (mi : MemoriesAndInteraction)
    (newIds newContraryIds : List String) (cbOk : Bool) (g : Graph) :
    Except Unit Graph :=
  let g1 := create_interaction_and_date g iid agentId mi.interaction_date
  let g2 := add_messages_to_interaction_from_top g1 iid mi.interaction
  (if !(newIds.isEmpty && newContraryIds.isEmpty) then
    add_memories_with_their_source_links g2 iid agentId mi newIds
      newContraryIds
   else .ok g2) >>= fun g3 =>
  let g4 := if !newContraryIds.isEmpty then
      link_update_contrary_memories_to_existing_memories g3
        (newContraryIds.zip
          (mi.contrary_memories.map (·.existing_contrary_memory_id)))
    else g3
  if !(newIds.isEmpty && newContraryIds.isEmpty) then
    if cbOk then .ok g4 else .error ()
  else .ok g4

/-- `save_interaction_with_memories` (interaction.py:132-196): runs `save_tx`
as one write transaction.  The freshly minted `shortuuid` interaction id and
`uuid4` memory ids are parameters (their generators are external). -/
def save_interaction_with_memories (g : Graph) (iid agentId : String)
    (mi : MemoriesAndInteraction) (newIds newContraryIds : List String)
    (cbOk : Bool) : Graph × Bool :=
  executeWrite g (save_tx iid agentId mi newIds newContraryIds cbOk)

/-- The comparison loop of `update_interaction_and_memories`
(interaction.py:217-226), rendered structurally: walk `existing` and
`incoming` in lockstep; the first index whose `role` or `content` differs is
reported as `some (some k)`; exhausting `existing` first reports
`some none`; exhausting `incoming` first is the `IndexError` of
`updated_memories_and_interaction.interaction[i]`, reported as `none`. -/
def firstMismatchIdx : List MsgDict → List MsgDict → Option (Option Nat)
  | [], _ => some none
  | _ :: _, [] => none
  | e :: es, c :: cs =>
    if e.role ≠ c.role ∨ e.content ≠ c.content then some (some 0)
    else (firstMismatchIdx es cs).map (Option.map (· + 1))

/-- The `truncate_from` value computed before `update_tx` runs
(interaction.py:217-226): `-1` when `existing` is non-empty and fully
matches (append), `0` when `existing` is empty, otherwise the first
mismatching index (which is also `0` for a mismatch at the top).  `none` is
the `IndexError` raised when `incoming` runs out first. -/
def computeTruncateFrom (existing incoming : List MsgDict) : Option Int :=
  (firstMismatchIdx existing incoming).map (fun r =>
    match r with
    | some k => (k : Int)
    | none => if existing.isEmpty then 0 else -1)

/-- Final query of `update_tx` (interaction.py:258-273): `SET` the
interaction's `updated_at` and `agent_id`, `MERGE` the Date bucket of the
update date and `MERGE` the occurrence edge. -/
def update_interaction_metadata (g : Graph) (iid agentId date : String) :
    Graph :=
  match findInteraction g iid with
  | none => g
  | some inode =>
    let g1 := { g with interactions := g.interactions.map (fun p =>
      if p.1 == inode then
        (p.1, { p.2 with updated_at := date, agent_id := agentId })
      else p) }
    let gd := mergeDateNode g1 (calendarDate date)
    if gd.1.hasOccurrenceOn.contains (inode, gd.2) then gd.1
    else { gd.1 with hasOccurrenceOn := gd.1.hasOccurrenceOn ++ [(inode, gd.2)] }

/-- `update_tx` (interaction.py:229-284): apply the branch selected by
`truncate_from` (`-1` append; `0` rebuild from the top; `k > 0` truncate at
`k` then append), then the same memory-recording, contrary-linking, metadata
and external-callback steps as `save_tx`. -/
def update_tx (iid agentId : String) (mi : MemoriesAndInteraction) (tf : Int)
    (newIds newContraryIds : List String) (cbOk : Bool) (g : Graph) :
    Except Unit Graph :=
  let g1 :=
    if tf == -1 then append_messages_to_interaction g iid mi.interaction
    else if tf == 0 then
      add_messages_to_interaction_from_top g iid mi.interaction
    else
      append_messages_to_interaction (truncate_messages_from g iid tf.toNat)
        iid mi.interaction
  (if !(newIds.isEmpty && newContraryIds.isEmpty) then
    add_memories_with_their_source_links g1 iid agentId mi newIds
      newContraryIds
   else .ok g1) >>= fun g2 =>
  let g3 := if !newContraryIds.isEmpty then
      link_update_contrary_memories_to_existing_memories g2
        (newContraryIds.zip
          (mi.contrary_memories.map (·.existing_contrary_memory_id)))
    else g2
  let g4 := update_interaction_metadata g3 iid agentId mi.interaction_date
  if !(newIds.isEmpty && newContraryIds.isEmpty) then
    if cbOk then .ok g4 else .error ()
  else .ok g4

/-- The dict accesses `existing_messages[i]["role"]` /
`["content"]` performed by the comparison loop on the property maps returned
by `get_interaction_messages`: a stored block without these keys raises
`KeyError`, rendered as `none`. -/
def readExistingMsgs : List BlockProps → Option (List MsgDict)
  | [] => some []
  | b :: bs =>
    match b.role, b.content with
    | some r, some c => (readExistingMsgs bs).map (⟨r, c⟩ :: ·)
    | _, _ => none

/-- `update_interaction_and_memories` (interaction.py:198-287): read the
stored transcript (outside the write transaction), compute `truncate_from`,
then run `update_tx` as one write transaction.  A raise while diffing
(`KeyError`/`IndexError`) aborts the call before any mutation. -/
def update_interaction_and_memories (g : Graph) (iid agentId : String)
    (mi : MemoriesAndInteraction) (newIds newContraryIds : List String)
    (cbOk : Bool) : Graph × Bool :=
  match readExistingMsgs (get_interaction_messages g iid) with
  | none => (g, false)
  | some existing =>
    match computeTruncateFrom existing mi.interaction with
    | none => (g, false)
    | some tf =>
      executeWrite g (update_tx iid agentId mi tf newIds newContraryIds cbOk)

/-- `get_all_interaction_memories` (interaction.py:316-338): the property
maps of every `Memory` whose `INTERACTION_SOURCE` is this interaction. -/
def get_all_interaction_memories (g : Graph) (iid : String) :
    List MemoryProps :=
  match findInteraction g iid with
  | none => []
  | some inode =>
    ((g.interactionSource.filter (fun e => e.2 == inode)).map (·.1)).filterMap
      (fun m => (g.memories.find? (fun p => p.1 == m)).map (·.2))

/-- The delete query of `delete_tx` (interaction.py:354-365).  The initial
`MATCH` needs at least one chain block, so an interaction without messages
produces no rows and nothing is deleted.  The memory clause is
`OPTIONAL MATCH (interaction)<-[:MESSAGE_SOURCE]-(memory)` — but
`MESSAGE_SOURCE` edges end at `MessageBlock` nodes, never at the interaction,
so it never matches.  The date clause requires
`NOT (date)<-[:HAS_OCCURRENCE_ON]-()`, evaluated against the pre-delete
store in which the interaction being deleted still references the date, so
it never matches either. -/
def delete_interaction_tx (g : Graph) (iid : String) : Graph :=
  match findInteraction g iid with
  | none => g
  | some inode =>
    match interactionWalk g inode with
    | [] => g
    | msgs =>
      let mems := (g.messageSource.filter (fun e => e.2 == inode)).map (·.1)
      let dates := ((g.hasOccurrenceOn.filter (fun e => e.1 == inode)).map
          (·.2)).filter
        (fun d => (g.hasOccurrenceOn.filter (fun e => e.2 == d)).isEmpty)
      removeNodes g (inode :: msgs ++ mems ++ dates)

/-- `delete_user_interaction_and_its_memories` (interaction.py:340-371):
gather the ids of the interaction's memories (via `INTERACTION_SOURCE`,
before any mutation), then in one transaction run the delete query and invoke
the external delete-by-ids callback with the gathered ids (`cbOk = false`
makes the callback raise, rolling the structural delete back).  Returns the
resulting store and the id list handed to the callback. -/
def delete_user_interaction_and_its_memories (g : Graph) (iid : String)
    (cbOk : Bool) : Graph × List String :=
  let ids := (get_all_interaction_memories g iid).map (·.memory_id)
  let gb := executeWrite g (fun h =>
    let h1 := delete_interaction_tx h iid
    if cbOk then .ok h1 else .error ())
  (gb.1, ids)

/-! The DiffMerger directive abstraction of spec §4.1, used to compare the
computed `truncate_from` against the spec's description of the merge plan. -/

/-- The three merge directives of spec §4.1. -/
inductive MergeDirective where
  | append
  | replaceFromTop
  | truncateAndReplace (k : Nat)
deriving DecidableEq, Repr

/-- The branch `update_tx` (interaction.py:231-249) selects for a given
`truncate_from` value: `-1` appends, `0` rebuilds from the top, and a
positive value truncates there and appends. -/
def directiveOfInt (tf : Int) : MergeDirective :=
  if tf = -1 then .append
  else if tf = 0 then .replaceFromTop
  else .truncateAndReplace tf.toNat

/-- Modelled from the spec (§4.1 "Algorithm"): the linear scan comparing
corresponding positions until a mismatch or `existing` is exhausted, where
equality requires both `role` and `content` to match exactly.  Returns the
first mismatching index, `none` when every compared position matches. -/
def specFirstMismatch : List MsgDict → List MsgDict → Option Nat
  | [], _ => none
  | _ :: _, [] => none
  | e :: es, c :: cs =>
    if e ≠ c then some 0 else (specFirstMismatch es cs).map (· + 1)

/-- The directive assignment exactly as claim C5 states it: empty `existing`
gives `REPLACE_FROM_TOP`, a full match gives `APPEND`, and any first
mismatch `k` gives `TRUNCATE_AND_REPLACE(at = k)`. -/
def claimedDirective (existing incoming : List MsgDict) : MergeDirective :=
  if existing.isEmpty then .replaceFromTop
  else match specFirstMismatch existing incoming with
    | none => .append
    | some k => .truncateAndReplace k

/-- The directive assignment the code actually realises: as claimed, except
that a first mismatch at index 0 is encoded as `truncate_from = 0` — the
same value as "existing empty" — and therefore takes the
`REPLACE_FROM_TOP` branch. -/
def amendedDirective (existing incoming : List MsgDict) : MergeDirective :=
  if existing.isEmpty then .replaceFromTop
  else match specFirstMismatch existing incoming with
    | none => .append
    | some 0 => .replaceFromTop
    | some k => .truncateAndReplace k

/-! Helper lemmas about the diff scan. -/

theorem msgDict_ne_iff (e c : MsgDict) :
    (e ≠ c) ↔ (e.role ≠ c.role ∨ e.content ≠ c.content) := by
  cases e; cases c
  simp only [MsgDict.mk.injEq, ne_eq, not_and_or]

theorem firstMismatchIdx_eq_spec (existing incoming : List MsgDict)
    (h : existing.length ≤ incoming.length) :
    firstMismatchIdx existing incoming =
      some (specFirstMismatch existing incoming) := by
  induction existing generalizing incoming with
  | nil => simp [firstMismatchIdx, specFirstMismatch]
  | cons e es ih =>
    cases incoming with
    | nil => simp at h
    | cons c cs =>
      simp only [List.length_cons, Nat.add_le_add_iff_right] at h
      by_cases hne : e ≠ c
      · have hrc := (msgDict_ne_iff e c).mp hne
        simp [firstMismatchIdx, specFirstMismatch, hne, hrc]
      · have heq : e = c := not_not.mp hne
        have hrc : ¬ (e.role ≠ c.role ∨ e.content ≠ c.content) := by
          subst heq; simp
        simp [firstMismatchIdx, specFirstMismatch, hne, hrc, ih cs h]

/-- C5 counterexample input: stored `[{"user","A"}]`, incoming
`[{"user","B"}]` — a first mismatch at index 0. -/
def c5Existing : List MsgDict := [⟨"user", "A"⟩]

/-- C5 counterexample incoming transcript. -/
def c5Incoming : List MsgDict := [⟨"user", "B"⟩]

/-- C5 (counterexample): for a mismatch at index 0 the claim demands the
directive `TRUNCATE_AND_REPLACE(at = 0)`, but the code computes
`truncate_from = 0`, the `REPLACE_FROM_TOP` branch. -/
theorem C5_counterexample_mismatch_at_zero :
    (computeTruncateFrom c5Existing c5Incoming).map directiveOfInt =
      some MergeDirective.replaceFromTop ∧
    claimedDirective c5Existing c5Incoming =
      MergeDirective.truncateAndReplace 0 := by decide

/-- C5 (amended): for `existing.length ≤ incoming.length` the update path's
scan yields `REPLACE_FROM_TOP` when `existing` is empty, `APPEND` when every
overlapping position matches, `TRUNCATE_AND_REPLACE(at = k)` when the first
mismatch index `k` is positive — and `REPLACE_FROM_TOP` (not
`TRUNCATE_AND_REPLACE(at = 0)`) when the first mismatch is at index 0. -/
theorem C5_directive_of_linear_scan (existing incoming : List MsgDict)
    (h : existing.length ≤ incoming.length) :
    (computeTruncateFrom existing incoming).map directiveOfInt =
      some (amendedDirective existing incoming) := by
  unfold computeTruncateFrom amendedDirective
  rw [firstMismatchIdx_eq_spec existing incoming h]
  cases hm : specFirstMismatch existing incoming with
  | none =>
    by_cases he : existing.isEmpty
    · simp [he, directiveOfInt]
    · simp [he, directiveOfInt]
  | some k =>
    have hne : ¬ existing.isEmpty := by
      cases existing with
      | nil => simp [specFirstMismatch] at hm
      | cons a l => simp
    cases k with
    | zero => simp [hne, directiveOfInt]
    | succ k =>
      have h1 : ¬ ((k : Int) + 1 = -1) := by omega
      have h2 : ¬ ((k : Int) + 1 = 0) := by omega
      simp [hne, directiveOfInt, h1, h2]

/-- C5 (witness): stored `[A, B]` against incoming `[A, B, C]` — the scan
completes and the amended directive assignment applies. -/
theorem C5_directive_witness :
    (computeTruncateFrom [⟨"user", "A"⟩, ⟨"user", "B"⟩]
        [⟨"user", "A"⟩, ⟨"user", "B"⟩, ⟨"user", "C"⟩]).map directiveOfInt =
      some (amendedDirective [⟨"user", "A"⟩, ⟨"user", "B"⟩]
        [⟨"user", "A"⟩, ⟨"user", "B"⟩, ⟨"user", "C"⟩]) :=
  C5_directive_of_linear_scan _ _ (by decide)

/-- C7 (counterexample): stored `[A, B]`, incoming `[A]` — every overlapping
position matches and incoming is strictly shorter, yet the diff computation
does not complete with an `APPEND` directive: it raises `IndexError`
(`updated_memories_and_interaction.interaction[1]` is out of range). -/
theorem C7_counterexample_shorter_incoming_raises :
    computeTruncateFrom [⟨"user", "A"⟩, ⟨"user", "B"⟩] [⟨"user", "A"⟩] =
      none := by decide

/-- C7 (amended): whenever `incoming` is strictly shorter than `existing`
and matches it at every overlapping position, the diff scan raises
`IndexError` instead of producing a directive — the update aborts before any
mutation rather than yielding `APPEND` with an empty suffix. -/
theorem C7_shorter_matching_incoming_raises (existing incoming : List MsgDict)
    (hlen : incoming.length < existing.length)
    (hmatch : ∀ i, i < incoming.length → existing.get? i = incoming.get? i) :
    computeTruncateFrom existing incoming = none := by
  suffices h : firstMismatchIdx existing incoming = none by
    simp [computeTruncateFrom, h]
  induction incoming generalizing existing with
  | nil =>
    cases existing with
    | nil => simp at hlen
    | cons e es => simp [firstMismatchIdx]
  | cons c cs ih =>
    cases existing with
    | nil => simp at hlen
    | cons e es =>
      have h0 := hmatch 0 (by simp)
      simp only [List.get?] at h0
      have hec : e = c := by injection h0
      have hrc : ¬ (e.role ≠ c.role ∨ e.content ≠ c.content) := by
        subst hec; simp
      have hrec : firstMismatchIdx es cs = none := by
        apply ih
        · simpa using Nat.lt_of_succ_lt_succ hlen
        · intro i hi
          have := hmatch (i + 1) (by simpa using Nat.succ_lt_succ hi)
          simpa [List.get?] using this
      simp [firstMismatchIdx, hrc, hrec]

/-- C7 (witness): stored `[A, B, C]`, incoming `[A, B]` — strictly shorter,
fully matching overlap, and the scan indeed raises. -/
theorem C7_shorter_matching_witness :
    computeTruncateFrom [⟨"user", "A"⟩, ⟨"user", "B"⟩, ⟨"user", "C"⟩]
      [⟨"user", "A"⟩, ⟨"user", "B"⟩] = none :=
  C7_shorter_matching_incoming_raises _ _ (by decide)
    (by
      intro i hi
      simp only [List.length_cons, List.length_nil] at hi
      match i, hi with
      | 0, _ => decide
      | 1, _ => decide)

/-! Claim C9: idempotence of the contrary-update linking. -/

theorem mergeContraryLink_not_linked (g : Graph) (p : String × String)
    (newNode oldNode : Nat)
    (hn : (g.memories.find? (fun q => q.2.memory_id == p.1)).map (·.1) =
      some newNode)
    (ho : (g.memories.find? (fun q => q.2.memory_id == p.2)).map (·.1) =
      some oldNode)
    (hnotin : (oldNode, newNode) ∉ g.contraryUpdate) :
    mergeContraryLink g p =
      { g with contraryUpdate := g.contraryUpdate ++ [(oldNode, newNode)] } := by
  unfold mergeContraryLink
  rw [hn, ho]
  dsimp only
  have hc : g.contraryUpdate.contains (oldNode, newNode) = false := by
    simp [List.contains, List.elem_eq_mem, hnotin]
  rw [hc]
  simp

theorem mergeContraryLink_already_linked (g : Graph) (p : String × String)
    (newNode oldNode : Nat)
    (hn : (g.memories.find? (fun q => q.2.memory_id == p.1)).map (·.1) =
      some newNode)
    (ho : (g.memories.find? (fun q => q.2.memory_id == p.2)).map (·.1) =
      some oldNode)
    (hin : (oldNode, newNode) ∈ g.contraryUpdate) :
    mergeContraryLink g p = g := by
  unfold mergeContraryLink
  rw [hn, ho]
  dsimp only
  have hc : g.contraryUpdate.contains (oldNode, newNode) = true := by
    simp [List.contains, List.elem_eq_mem, hin]
  rw [hc]
  simp

theorem foldl_mergeContraryLink_stable (p : String × String)
    (newNode oldNode : Nat) (m : Nat) :
    ∀ g : Graph,
    (g.memories.find? (fun q => q.2.memory_id == p.1)).map (·.1) =
      some newNode →
    (g.memories.find? (fun q => q.2.memory_id == p.2)).map (·.1) =
      some oldNode →
    (oldNode, newNode) ∈ g.contraryUpdate →
    (List.replicate m p).foldl mergeContraryLink g = g := by
  induction m with
  | zero => intro g _ _ _; rfl
  | succ m ih =>
    intro g hn ho hin
    rw [List.replicate_succ, List.foldl_cons,
      mergeContraryLink_already_linked g p newNode oldNode hn ho hin]
    exact ih g hn ho hin

/-- C9: `_link_update_contrary_memories_to_existing_memories` is upsert-safe.
If both memories of a pair exist and are not yet linked, then after any
positive number of invocations with that pair there is exactly one
`CONTRARY_UPDATE` edge from the old memory to the new one — re-linking an
already-linked pair never creates a second supersession edge. -/
theorem C9_contrary_link_idempotent (g : Graph) (p : String × String)
    (n : Nat) (newNode oldNode : Nat)
    (hn : (g.memories.find? (fun q => q.2.memory_id == p.1)).map (·.1) =
      some newNode)
    (ho : (g.memories.find? (fun q => q.2.memory_id == p.2)).map (·.1) =
      some oldNode)
    (h0 : g.contraryUpdate.count (oldNode, newNode) = 0) :
    (link_update_contrary_memories_to_existing_memories g
        (List.replicate (n + 1) p)).contraryUpdate.count
      (oldNode, newNode) = 1 := by
  have hnotin : (oldNode, newNode) ∉ g.contraryUpdate :=
    List.count_eq_zero.mp h0
  unfold link_update_contrary_memories_to_existing_memories
  rw [List.replicate_succ, List.foldl_cons,
    mergeContraryLink_not_linked g p newNode oldNode hn ho hnotin]
  set g1 : Graph :=
    { g with contraryUpdate := g.contraryUpdate ++ [(oldNode, newNode)] } with hg1
  have hstable : (List.replicate n p).foldl mergeContraryLink g1 = g1 := by
    apply foldl_mergeContraryLink_stable p newNode oldNode n g1
    · exact hn
    · exact ho
    · simp [hg1]
  rw [hstable, hg1]
  simp [List.count_append, h0]

/-- C9 (witness) scenario: two memories, not yet linked, linked twice. -/
def c9Graph : Graph := { freshGraph with
  memories :=
    [(0, { memory_id := "mNew", memory := "new fact"
           obtained_at := "2024-01-02", agent_id := "agent"
           interaction_id := "i2" }),
     (1, { memory_id := "mOld", memory := "old fact"
           obtained_at := "2024-01-01", agent_id := "agent"
           interaction_id := "i1" })]
  nextId := 2 }

/-- C9 (witness): linking the pair twice leaves exactly one edge. -/
theorem C9_contrary_link_witness :
    (link_update_contrary_memories_to_existing_memories c9Graph
        (List.replicate 2 ("mNew", "mOld"))).contraryUpdate.count (1, 0) =
      1 :=
  C9_contrary_link_idempotent c9Graph ("mNew", "mOld") 1 0 1
    (by decide) (by decide) (by decide)

/-! Claim C4: the save transaction aborts wholesale when the external
vector-index add callback raises. -/

theorem isEmpty_and_eq_false {a b : List String}
    (h : a ≠ [] ∨ b ≠ []) : (a.isEmpty && b.isEmpty) = false := by
  rcases h with h | h
  · cases a with
    | nil => exact absurd rfl h
    | cons x xs => rfl
  · cases b with
    | nil => exact absurd rfl h
    | cons x xs => simp [List.isEmpty]

/-- C4: if the external vector-index add callback raises during
`save_interaction_with_memories` (and there is at least one memory, so the
callback is reached at all), the transaction rolls back: the committed store
is exactly the pre-state, the call reports failure, and — the interaction id
being freshly minted — a subsequent `get_interaction_messages` for it
returns the empty sequence.  The callback is the last step of `save_tx`, and
the `Except` short-circuiting of the model performs no further mutation
after the failure. -/
theorem C4_callback_failure_aborts_save (g : Graph) (iid agentId : String)
    (mi : MemoriesAndInteraction) (newIds newContraryIds : List String)
    (hmem : newIds ≠ [] ∨ newContraryIds ≠ [])
    (hfresh : findInteraction g iid = none) :
    save_interaction_with_memories g iid agentId mi newIds newContraryIds
        false = (g, false) ∧
    get_interaction_messages g iid = [] := by
  constructor
  · have hflag := isEmpty_and_eq_false hmem
    unfold save_interaction_with_memories executeWrite save_tx
    rw [hflag]
    cases hadd : add_memories_with_their_source_links
        (add_messages_to_interaction_from_top
          (create_interaction_and_date g iid agentId mi.interaction_date)
          iid mi.interaction)
        iid agentId mi newIds newContraryIds with
    | error e => simp [hadd, Bind.bind, Except.bind]
    | ok g3 => simp [hadd, Bind.bind, Except.bind]
  · unfold get_interaction_messages
    rw [hfresh]

/-- C4 (witness) input: one message, one memory. -/
def c4Input : MemoriesAndInteraction :=
  { interaction := [⟨"user", "hi"⟩], interaction_date := "2024-01-01"
    memories := [⟨"fact", [0]⟩], contrary_memories := [] }

/-- C4 (witness): a failing callback on the fresh store leaves it fresh. -/
theorem C4_callback_failure_witness :
    save_interaction_with_memories freshGraph "i1" "agent" c4Input ["m1"] []
        false = (freshGraph, false) ∧
    get_interaction_messages freshGraph "i1" = [] :=
  C4_callback_failure_aborts_save freshGraph "i1" "agent" c4Input ["m1"] []
    (Or.inl (by decide)) (by decide)

/-! Claim C10: deleting an interaction whose message chain is empty touches
nothing structurally, yet still drives the external delete callback. -/

/-- C10: if the interaction exists but has no `FIRST_MESSAGE` edge, the
delete query's initial `MATCH` produces no rows, so the structural store is
returned unchanged — interaction, memories and Date bucket all survive —
while the delete-by-ids callback is still invoked with the memory ids
gathered via `INTERACTION_SOURCE` before the mutation. -/
theorem C10_delete_with_empty_chain_is_noop (g : Graph) (iid : String)
    (inode : Nat)
    (hfind : findInteraction g iid = some inode)
    (hfirst : firstEdges g inode = []) :
    delete_user_interaction_and_its_memories g iid true =
      (g, (get_all_interaction_memories g iid).map (·.memory_id)) := by
  have hwalk : interactionWalk g inode = [] := by
    unfold interactionWalk
    rw [hfirst]
  have hdel : delete_interaction_tx g iid = g := by
    unfold delete_interaction_tx
    rw [hfind]
    dsimp only
    rw [hwalk]
  unfold delete_user_interaction_and_its_memories executeWrite
  simp [hdel]

/-- C10 (witness) store: an interaction with a memory but no chain. -/
def c10Graph : Graph := { freshGraph with
  interactions :=
    [(0, { interaction_id := "i9", agent_id := "agent"
           created_at := "2024-01-01", updated_at := "2024-01-01" })]
  memories :=
    [(1, { memory_id := "m9", memory := "fact", obtained_at := "2024-01-01"
           agent_id := "agent", interaction_id := "i9" })]
  dates := [(2, "2024-01-01")]
  hadInteraction := [0]
  interactionSource := [(1, 0)]
  hasOccurrenceOn := [(0, 2)]
  includes := [1]
  nextId := 3 }

/-- C10 (witness): the concrete no-op delete still reports `["m9"]`. -/
theorem C10_delete_empty_chain_witness :
    delete_user_interaction_and_its_memories c10Graph "i9" true =
      (c10Graph, ["m9"]) := by
  rw [C10_delete_with_empty_chain_is_noop c10Graph "i9" 0 (by decide)
    (by decide)]
  decide

/-! Claims C1 and C3: cascading delete of a saved interaction. -/

/-- Save input for the delete scenarios: one message, one memory cited from
position 0. -/
def c1Input : MemoriesAndInteraction :=
  { interaction := [⟨"user", "hello"⟩], interaction_date := "2024-01-01"
    memories := [⟨"fact", [0]⟩], contrary_memories := [] }

/-- Store after saving interaction `i1` with memory `m1` into a fresh scope:
interaction node 0, Date node 1 for 2024-01-01, message block 2, memory
node 3 with `INTERACTION_SOURCE` to 0 and `MESSAGE_SOURCE` to 2. -/
def c1Saved : Graph :=
  (save_interaction_with_memories freshGraph "i1" "agent" c1Input ["m1"] []
    true).1

/-- Store and callback ids after deleting interaction `i1`. -/
def c1Deleted : Graph × List String :=
  delete_user_interaction_and_its_memories c1Saved "i1" true

/-- C1: the delete removes the interaction node and its message chain and
hands the pre-gathered memory ids to the delete-by-ids callback — but the
`Memory` node itself survives as an orphan, because the delete query matches
memories with `(interaction)<-[:MESSAGE_SOURCE]-(memory)` while memories are
linked to the interaction via `INTERACTION_SOURCE` (`MESSAGE_SOURCE` edges
end at message blocks).  This contradicts both the claim and the function's
own name and comment ("Delete the interaction, its messages and
memories."). -/
theorem C1_delete_leaves_memory_node_behind :
    c1Deleted.2 = ["m1"] ∧
    c1Deleted.1.memories.map (fun p => p.2.memory_id) = ["m1"] ∧
    c1Deleted.1.interactions = [] ∧
    c1Deleted.1.blocks = [] := by decide

/-- C3: after deleting the only interaction of the scope, its Date bucket —
referenced by no interaction at all any more — is still present.  The guard
`WHERE NOT (date)<-[:HAS_OCCURRENCE_ON]-()` is evaluated against the
pre-delete store, in which the interaction being deleted still references
the date, so the bucket is never selected for deletion. -/
theorem C3_unshared_date_bucket_survives :
    c1Deleted.1.dates = [(1, "2024-01-01")] ∧
    c1Deleted.1.hasOccurrenceOn = [] ∧
    c1Deleted.1.interactions = [] := by decide

/-! Claim C2: the message-chain invariant across operations. -/

/-- Store after saving interaction `i2` with the single message `A`. -/
def c2Saved : Graph :=
  (save_interaction_with_memories freshGraph "i2" "agent"
    { interaction := [⟨"user", "A"⟩], interaction_date := "2024-01-01"
      memories := [], contrary_memories := [] } [] [] true).1

/-- Result of updating `i2` with the transcript `[B]` — a first mismatch at
index 0 against the non-empty stored chain `[A]`. -/
def c2Updated : Graph × Bool :=
  update_interaction_and_memories c2Saved "i2" "agent"
    { interaction := [⟨"user", "B"⟩], interaction_date := "2024-01-02"
      memories := [], contrary_memories := [] } [] [] true

/-- C2: the update reports success, but the store now violates the chain
invariant: the `truncate_from = 0` branch re-runs
`_add_messages_to_interaction_from_top` without deleting the existing chain,
so interaction node 0 ends up with two `FIRST_MESSAGE` edges and two
`MessageBlock`s at position 0 — not a single linear chain equal to the
incoming transcript. -/
theorem C2_update_mismatch_at_zero_duplicates_chain :
    c2Updated.2 = true ∧
    (c2Updated.1.blocks.filter (fun b => b.2.msg_position == 0)).length = 2 ∧
    (c2Updated.1.firstMessage.filter (fun e => e.1 == 0)).length = 2 := by
  decide

/-! Claim C8: the build/read round trip. -/

/-- A fresh scope already holding the bare interaction `i8`. -/
def c8Graph : Graph := { freshGraph with
  interactions :=
    [(0, { interaction_id := "i8", agent_id := "agent"
           created_at := "2024-01-01", updated_at := "2024-01-01" })]
  hadInteraction := [0]
  nextId := 1 }

/-- C8 (counterexample): building the chain from the empty message list does
not read back as the empty sequence.  `CREATE` of `msg1` runs
unconditionally with the `null` values `$messages[0].role` /
`$messages[0].content`, so a degenerate block with only `msg_position = 0`
is stored and returned. -/
theorem C8_empty_list_counterexample :
    get_interaction_messages
        (add_messages_to_interaction_from_top c8Graph "i8" []) "i8" =
      [{ msg_position := 0, role := none, content := none }] := by decide

/-! Generic machinery for reasoning about the chains the queries build: a
store is id-sane when every recorded node id is below `nextId`; a list of
block ids is a straight path when `IS_NEXT` steps through it linearly; the
walk of a straight path is the path itself. -/

/-- Node-id sanity: every node id recorded in the tables the chain walk
consults is strictly below `nextId`.  Every store the operations build
satisfies this, since ids are minted from `nextId`. -/
def idsBounded (g : Graph) : Bool :=
  g.interactions.all (fun p => p.1 < g.nextId) &&
  (g.blocks.all (fun p => p.1 < g.nextId) &&
  (g.memories.all (fun p => p.1 < g.nextId) &&
  (g.dates.all (fun p => p.1 < g.nextId) &&
  (g.hadInteraction.all (fun n => n < g.nextId) &&
  (g.includes.all (fun n => n < g.nextId) &&
  (g.firstMessage.all (fun e => e.1 < g.nextId && e.2 < g.nextId) &&
  (g.isNext.all (fun e => e.1 < g.nextId && e.2 < g.nextId) &&
  (g.interactionSource.all (fun e => e.1 < g.nextId && e.2 < g.nextId) &&
  (g.messageSource.all (fun e => e.1 < g.nextId && e.2 < g.nextId) &&
  (g.hasOccurrenceOn.all (fun e => e.1 < g.nextId && e.2 < g.nextId) &&
  g.contraryUpdate.all (fun e => e.1 < g.nextId && e.2 < g.nextId)))))))))))

theorem bounded_parts {g : Graph} (hb : idsBounded g = true) :
    (∀ p ∈ g.interactions, p.1 < g.nextId) ∧
    (∀ p ∈ g.blocks, p.1 < g.nextId) ∧
    (∀ e ∈ g.firstMessage, e.1 < g.nextId ∧ e.2 < g.nextId) ∧
    (∀ e ∈ g.isNext, e.1 < g.nextId ∧ e.2 < g.nextId) := by
  simp only [idsBounded, Bool.and_eq_true, List.all_eq_true,
    decide_eq_true_eq] at hb
  exact ⟨hb.1, hb.2.1, hb.2.2.2.2.2.2.1,
    fun e he => (hb.2.2.2.2.2.2.2.1 e he)⟩

theorem bounded_rest {g : Graph} (hb : idsBounded g = true) :
    (∀ p ∈ g.memories, p.1 < g.nextId) ∧
    (∀ p ∈ g.dates, p.1 < g.nextId) ∧
    (∀ n ∈ g.hadInteraction, n < g.nextId) ∧
    (∀ n ∈ g.includes, n < g.nextId) ∧
    (∀ e ∈ g.interactionSource, e.1 < g.nextId ∧ e.2 < g.nextId) ∧
    (∀ e ∈ g.messageSource, e.1 < g.nextId ∧ e.2 < g.nextId) ∧
    (∀ e ∈ g.hasOccurrenceOn, e.1 < g.nextId ∧ e.2 < g.nextId) ∧
    (∀ e ∈ g.contraryUpdate, e.1 < g.nextId ∧ e.2 < g.nextId) := by
  simp only [idsBounded, Bool.and_eq_true, List.all_eq_true,
    decide_eq_true_eq] at hb
  exact ⟨hb.2.2.1, hb.2.2.2.1, hb.2.2.2.2.1, hb.2.2.2.2.2.1,
    hb.2.2.2.2.2.2.2.2.1, hb.2.2.2.2.2.2.2.2.2.1,
    hb.2.2.2.2.2.2.2.2.2.2.1, hb.2.2.2.2.2.2.2.2.2.2.2⟩

/-- A block list is a straight path when each entry's `IS_NEXT` targets are
exactly the next entry (and the last entry has none). -/
def straightPath (g : Graph) : List Nat → Prop
  | [] => True
  | [b] => nextTargets g b = []
  | b :: c :: rest => nextTargets g b = [c] ∧ straightPath g (c :: rest)

theorem walkFrom_straight (g : Graph) :
    ∀ (p : List Nat) (b : Nat) (fuel : Nat), straightPath g (b :: p) →
      p.length ≤ fuel → walkFrom g fuel b = b :: p := by
  intro p
  induction p with
  | nil =>
    intro b fuel h _
    have hb : nextTargets g b = [] := h
    cases fuel with
    | zero => rfl
    | succ f => simp [walkFrom, hb]
  | cons c p' ih =>
    intro b fuel h hlen
    obtain ⟨hb, hrest⟩ := h
    cases fuel with
    | zero => simp at hlen
    | succ f =>
      simp only [walkFrom, hb]
      rw [ih c f hrest (by simp at hlen; omega)]

theorem straight_of_fun (g : Graph) (f : Nat → Nat) :
    ∀ (n a : Nat),
      (∀ j, a ≤ j → j < a + n →
        nextTargets g (f j) = if j + 1 < a + n then [f (j + 1)] else []) →
      straightPath g ((List.range' a n).map f) := by
  intro n
  induction n with
  | zero => intro a _; simp [straightPath]
  | succ m ih =>
    intro a h
    cases m with
    | zero =>
      have h0 := h a (Nat.le_refl a) (by omega)
      rw [if_neg (by omega)] at h0
      simp [List.range'_succ, straightPath, h0]
    | succ m' =>
      rw [List.range'_succ, List.map_cons, List.range'_succ, List.map_cons]
      refine ⟨?_, ?_⟩
      · have h0 := h a (Nat.le_refl a) (by omega)
        rw [if_pos (by omega)] at h0
        exact h0
      · rw [← List.map_cons, ← List.range'_succ]
        apply ih (a + 1)
        intro j hj1 hj2
        have hj2' : j < a + (m' + 1 + 1) := by omega
        have := h j (by omega) hj2'
        have heq : a + 1 + (m' + 1) = a + (m' + 1 + 1) := by omega
        rw [heq]
        exact this

theorem filterMap_all_some {α β : Type} (f : α → Option β) (v : α → β) :
    ∀ l : List α, (∀ x ∈ l, f x = some (v x)) → l.filterMap f = l.map v := by
  intro l
  induction l with
  | nil => intro _; rfl
  | cons x xs ih =>
    intro h
    rw [List.filterMap_cons, h x (by simp), List.map_cons,
      ih (fun y hy => h y (by simp [hy]))]

/-- Master read lemma: when the chain of `inode` is the straight path
`f 0, f 1, ..., f (N-1)` and block `f j` carries properties `v j`, the read
returns `v 0, ..., v (N-1)`. -/
theorem read_eq_of_fun (g : Graph) (iid : String) (inode : Nat)
    (f : Nat → Nat) (v : Nat → BlockProps) (N : Nat) (hN : 1 ≤ N)
    (hfind : findInteraction g iid = some inode)
    (hfirst : firstEdges g inode = [f 0])
    (hnext : ∀ j, j < N →
      nextTargets g (f j) = if j + 1 < N then [f (j + 1)] else [])
    (hfuel : N - 1 ≤ g.blocks.length)
    (hblock : ∀ j, j < N → findBlock g (f j) = some (v j)) :
    get_interaction_messages g iid = (List.range' 0 N).map v := by
  have hsp : straightPath g ((List.range' 0 N).map f) := by
    apply straight_of_fun g f N 0
    intro j _ hj2
    rw [Nat.zero_add] at hj2 ⊢
    exact hnext j hj2
  obtain ⟨m, rfl⟩ : ∃ m, N = m + 1 := ⟨N - 1, by omega⟩
  have hlist : (List.range' 0 (m + 1)).map f = f 0 :: (List.range' 1 m).map f := by
    rw [List.range'_succ]
    rfl
  have hwalk : interactionWalk g inode = f 0 :: (List.range' 1 m).map f := by
    unfold interactionWalk
    rw [hfirst]
    apply walkFrom_straight
    · rw [← hlist]; exact hsp
    · simp only [List.length_map, List.length_range']
      omega
  unfold get_interaction_messages
  rw [hfind]
  dsimp only
  rw [hwalk, ← hlist, List.filterMap_map]
  apply filterMap_all_some
  intro j hj
  have hjN : j < m + 1 := by
    have := List.mem_range'_1.mp hj
    omega
  exact hblock j hjN

/-! Filter and find computations over the id ladders the builders create. -/

theorem range'_contains (b m i : Nat) :
    (List.range' b m).contains i = decide (b ≤ i ∧ i < b + m) := by
  show (List.range' b m).elem i = _
  rw [List.elem_eq_mem]
  exact decide_eq_decide.mpr List.mem_range'_1

theorem range'_filter_decide_lt :
    ∀ (L a K : Nat), (List.range' a L).filter (fun i => decide (i < K)) =
      List.range' a (min (K - a) L) := by
  intro L
  induction L with
  | zero => intro a K; simp
  | succ m ih =>
    intro a K
    rw [List.range'_succ, List.filter_cons]
    by_cases h : a < K
    · rw [if_pos (by simpa using h), ih (a + 1) K]
      have hmin : min (K - a) (m + 1) = min (K - (a + 1)) m + 1 := by omega
      rw [hmin, List.range'_succ]
    · rw [if_neg (by simpa using h), ih (a + 1) K]
      have h1 : min (K - (a + 1)) m = 0 := by omega
      have h2 : min (K - a) (m + 1) = 0 := by omega
      rw [h1, h2]
      rfl

theorem ladder_filter (b : Nat) :
    ∀ (n a : Nat),
      ((List.range' a n).map (fun i => (i, i + 1))).filter
          (fun e => e.1 == b) =
        if a ≤ b ∧ b < a + n then [(b, b + 1)] else [] := by
  intro n
  induction n with
  | zero =>
    intro a
    have hc : ¬(a ≤ b ∧ b < a + 0) := by omega
    rw [if_neg hc]
    rfl
  | succ m ih =>
    intro a
    rw [List.range'_succ, List.map_cons, List.filter_cons]
    dsimp only
    by_cases hab : a = b
    · subst hab
      rw [beq_self_eq_true a, if_pos rfl, ih (a + 1)]
      have hc1 : ¬(a + 1 ≤ a ∧ a < a + 1 + m) := by omega
      have hc2 : a ≤ a ∧ a < a + (m + 1) := by omega
      rw [if_neg hc1, if_pos hc2]
    · rw [beq_eq_false_iff_ne.mpr hab, if_neg Bool.false_ne_true, ih (a + 1)]
      by_cases hcond : a + 1 ≤ b ∧ b < a + 1 + m
      · have hc2 : a ≤ b ∧ b < a + (m + 1) := by omega
        rw [if_pos hcond, if_pos hc2]
      · have hc2 : ¬(a ≤ b ∧ b < a + (m + 1)) := by omega
        rw [if_neg hcond, if_neg hc2]

theorem pair_find_hit {β : Type} (s : Nat) (v : Nat → β) :
    ∀ (n a j : Nat), a ≤ j → j < a + n →
      ((List.range' a n).map (fun t => (s + t, v t))).find?
          (fun p => p.1 == s + j) = some (s + j, v j) := by
  intro n
  induction n with
  | zero => intro a j h1 h2; omega
  | succ m ih =>
    intro a j h1 h2
    rw [List.range'_succ, List.map_cons]
    rw [List.find?_cons]
    by_cases haj : a = j
    · subst haj
      have hp : ((s + a, v a).1 == s + a) = true := by simp
      rw [hp]
    · have hp : ((s + a, v a).1 == s + j) = false := by
        simp only [beq_eq_false_iff_ne, ne_eq]
        omega
      rw [hp]
      exact ih (a + 1) j (by omega) (by omega)

theorem pair_find_miss {β : Type} (s : Nat) (v : Nat → β) (n a : Nat)
    (t : Nat) (h : ∀ k, a ≤ k → k < a + n → s + k ≠ t) :
    ((List.range' a n).map (fun u => (s + u, v u))).find?
      (fun p => p.1 == t) = none := by
  apply List.find?_eq_none.mpr
  intro x hx
  simp only [List.mem_map] at hx
  obtain ⟨k, hk, rfl⟩ := hx
  have hm := List.mem_range'_1.mp hk
  simp only [Nat.beq_eq_true_eq]
  exact h k hm.1 hm.2

theorem find_fst_none_of_lt {β : Type} (l : List (Nat × β)) (t : Nat)
    (h : ∀ x ∈ l, x.1 < t) :
    l.find? (fun p => p.1 == t) = none := by
  apply List.find?_eq_none.mpr
  intro x hx
  simp only [Nat.beq_eq_true_eq]
  exact Nat.ne_of_lt (h x hx)

theorem filter_fst_eq_nil_of_lt (l : List (Nat × Nat)) (t : Nat)
    (h : ∀ x ∈ l, x.1 < t) :
    l.filter (fun e => e.1 == t) = [] := by
  apply List.filter_eq_nil_iff.mpr
  intro x hx
  simp only [Nat.beq_eq_true_eq]
  exact Nat.ne_of_lt (h x hx)

theorem filter_not_contains_keys_lt {β : Type} (l : List (Nat × β))
    (b m : Nat) (h : ∀ x ∈ l, x.1 < b) :
    l.filter (fun p => !((List.range' b m).contains p.1)) = l := by
  apply List.filter_eq_self.mpr
  intro x hx
  rw [range'_contains]
  simp only [Bool.not_eq_true']
  simp only [decide_eq_false_iff_not]
  have hxb := h x hx
  omega

theorem filter_not_contains_edges_lt (l : List (Nat × Nat)) (b m : Nat)
    (h : ∀ x ∈ l, x.1 < b ∧ x.2 < b) :
    l.filter (fun e => !((List.range' b m).contains e.1) &&
      !((List.range' b m).contains e.2)) = l := by
  apply List.filter_eq_self.mpr
  intro x hx
  rw [range'_contains, range'_contains]
  have hxb := h x hx
  simp only [Bool.and_eq_true, Bool.not_eq_true', decide_eq_false_iff_not]
  omega

/-! The explicit shape of a chain built from the top, and the general
round-trip read (claims C8 and C6). -/

/-- The expected read-back of a chain built from `msgs`: one property map
per position, position `k` holding `msgs[k]`'s role and content. -/
def blocksOf (msgs : List MsgDict) : List BlockProps :=
  (List.range' 0 msgs.length).map (fun k => mkBlockProps msgs k)

theorem exists_succ_len (msgs : List MsgDict) (hne : msgs ≠ []) :
    ∃ L, msgs.length = L + 1 := by
  cases msgs with
  | nil => exact absurd rfl hne
  | cons x xs => exact ⟨xs.length, rfl⟩

theorem top_blocks_eq (msgs : List MsgDict) (s : Nat) (hne : msgs ≠ []) :
    (s, mkBlockProps msgs 0) ::
        (cypherRange 1 (msgs.length - 1)).map
          (fun idx => (s + idx, mkBlockProps msgs idx)) =
      (List.range' 0 msgs.length).map (fun k => (s + k, mkBlockProps msgs k)) := by
  obtain ⟨L, hL⟩ := exists_succ_len msgs hne
  rw [hL, List.range'_succ, List.map_cons]
  rfl

theorem map_fst_pairs {β : Type} (s : Nat) (v : Nat → β) (a n : Nat) :
    ((List.range' a n).map (fun k => (s + k, v k))).map (·.1) =
      List.range' (s + a) n := by
  rw [List.map_map]
  have hf : ((fun (x : Nat × β) => x.1) ∘ fun k => (s + k, v k)) =
      (s + ·) := rfl
  rw [hf]
  exact List.map_add_range' s a n 1

theorem chainLinks_range' : ∀ (n s : Nat),
    chainLinks (List.range' s (n + 1)) =
      (List.range' s n).map (fun i => (i, i + 1)) := by
  intro n
  induction n with
  | zero => intro s; rfl
  | succ m ih =>
    intro s
    have h1 : List.range' s (m + 1 + 1) = s :: List.range' (s + 1) (m + 1) :=
      List.range'_succ s (m + 1) 1
    have h2 : List.range' (s + 1) (m + 1) = (s + 1) :: List.range' (s + 2) m :=
      List.range'_succ (s + 1) m 1
    rw [h1, h2]
    show (s, s + 1) :: chainLinks ((s + 1) :: List.range' (s + 2) m) = _
    rw [← h2, ih (s + 1), List.range'_succ, List.map_cons]

theorem add_from_top_eq (g : Graph) (iid : String) (inode : Nat)
    (msgs : List MsgDict) (hfind : findInteraction g iid = some inode)
    (hne : msgs ≠ []) :
    add_messages_to_interaction_from_top g iid msgs =
      { g with
        blocks := g.blocks ++
          (List.range' 0 msgs.length).map
            (fun k => (g.nextId + k, mkBlockProps msgs k))
        firstMessage := g.firstMessage ++ [(inode, g.nextId)]
        isNext := g.isNext ++
          (List.range' g.nextId (msgs.length - 1)).map (fun i => (i, i + 1))
        nextId := g.nextId + msgs.length } := by
  obtain ⟨L, hL⟩ := exists_succ_len msgs hne
  unfold add_messages_to_interaction_from_top
  rw [hfind]
  dsimp only
  rw [top_blocks_eq msgs g.nextId hne]
  rw [map_fst_pairs g.nextId (fun k => mkBlockProps msgs k) 0 msgs.length]
  rw [Nat.add_zero]
  rw [hL]
  have hcl : chainLinks (List.range' g.nextId (L + 1)) =
      (List.range' g.nextId L).map (fun i => (i, i + 1)) :=
    chainLinks_range' L g.nextId
  rw [hcl]
  have hlen : ((List.range' 0 (L + 1)).map
      (fun k => (g.nextId + k, mkBlockProps msgs k))).length = L + 1 := by
    rw [List.length_map, List.length_range']
  rw [hlen]
  have hL1 : L + 1 - 1 = L := rfl
  rw [hL1]

theorem add_from_top_read (g : Graph) (iid : String) (inode : Nat)
    (msgs : List MsgDict) (hb : idsBounded g = true)
    (hfind : findInteraction g iid = some inode)
    (hfirst : firstEdges g inode = [])
    (hne : msgs ≠ []) :
    get_interaction_messages (add_messages_to_interaction_from_top g iid msgs)
      iid = blocksOf msgs := by
  obtain ⟨hbi, hbb, hbf, hbn⟩ := bounded_parts hb
  obtain ⟨L, hL⟩ := exists_succ_len msgs hne
  rw [add_from_top_eq g iid inode msgs hfind hne]
  apply read_eq_of_fun _ iid inode (fun j => g.nextId + j)
    (fun k => mkBlockProps msgs k) msgs.length (by omega)
  · exact hfind
  · show ((g.firstMessage ++ [(inode, g.nextId)]).filter
        (fun e => e.1 == inode)).map (·.2) = [g.nextId + 0]
    rw [List.filter_append]
    have hold : g.firstMessage.filter (fun e => e.1 == inode) = [] := by
      have hmap := hfirst
      unfold firstEdges at hmap
      exact List.map_eq_nil_iff.mp hmap
    rw [hold]
    simp
  · intro j hj
    show ((g.isNext ++
        (List.range' g.nextId (msgs.length - 1)).map
          (fun i => (i, i + 1))).filter
          (fun (e : Nat × Nat) => e.1 == g.nextId + j)).map
        (fun (e : Nat × Nat) => e.2) = _
    rw [List.filter_append]
    rw [filter_fst_eq_nil_of_lt g.isNext (g.nextId + j)
      (fun x hx => by have := (hbn x hx).1; omega)]
    rw [List.nil_append, ladder_filter]
    by_cases hc : j + 1 < msgs.length
    · have hcc : g.nextId ≤ g.nextId + j ∧
        g.nextId + j < g.nextId + (msgs.length - 1) := by omega
      rw [if_pos hcc, if_pos hc]
      rfl
    · have hcc : ¬(g.nextId ≤ g.nextId + j ∧
        g.nextId + j < g.nextId + (msgs.length - 1)) := by omega
      rw [if_neg hcc, if_neg hc]
      rfl
  · show msgs.length - 1 ≤ (g.blocks ++
      (List.range' 0 msgs.length).map
        (fun k => (g.nextId + k, mkBlockProps msgs k))).length
    rw [List.length_append, List.length_map, List.length_range']
    omega
  · intro j hj
    show (((g.blocks ++
        (List.range' 0 msgs.length).map
          (fun k => (g.nextId + k, mkBlockProps msgs k))).find?
        (fun (p : Nat × BlockProps) => p.1 == g.nextId + j)).map
      (fun (p : Nat × BlockProps) => p.2)) = _
    rw [List.find?_append]
    rw [find_fst_none_of_lt g.blocks (g.nextId + j)
      (fun x hx => by have := hbb x hx; omega)]
    rw [Option.none_or]
    rw [pair_find_hit g.nextId (fun k => mkBlockProps msgs k) msgs.length 0 j
      (by omega) (by omega)]
    rfl

/-- C8 (amended theorem): for every non-empty message list, reading the
chain back after building it from the top returns exactly that list, in
order — as property maps in `blocksOf` form, whose dict view
(`readExistingMsgs`) is exactly the message list. -/
theorem C8_roundtrip_nonempty (g : Graph) (iid : String) (inode : Nat)
    (msgs : List MsgDict) (hb : idsBounded g = true)
    (hfind : findInteraction g iid = some inode)
    (hfirst : firstEdges g inode = [])
    (hne : msgs ≠ []) :
    get_interaction_messages (add_messages_to_interaction_from_top g iid msgs)
      iid = blocksOf msgs :=
  add_from_top_read g iid inode msgs hb hfind hfirst hne

/-- C8 (witness): the round trip on a concrete two-message transcript. -/
theorem C8_roundtrip_witness :
    get_interaction_messages
        (add_messages_to_interaction_from_top c8Graph "i8"
          [⟨"user", "A"⟩, ⟨"assistant", "B"⟩]) "i8" =
      blocksOf [⟨"user", "A"⟩, ⟨"assistant", "B"⟩] :=
  C8_roundtrip_nonempty c8Graph "i8" 0 [⟨"user", "A"⟩, ⟨"assistant", "B"⟩]
    (by decide) (by decide) (by decide) (by decide)

/-! Structure of a positive truncation point, and the dict view of a built
chain — the pieces the update pipeline composes. -/

theorem firstMismatchIdx_some_spec :
    ∀ (ex inc : List MsgDict) (k : Nat),
      firstMismatchIdx ex inc = some (some k) →
      (∀ i, i < k → ex.get? i = inc.get? i) ∧ k < ex.length ∧ k < inc.length := by
  intro ex
  induction ex with
  | nil => intro inc k h; simp [firstMismatchIdx] at h
  | cons e es ih =>
    intro inc k h
    cases inc with
    | nil => simp [firstMismatchIdx] at h
    | cons c cs =>
      by_cases hm : e.role ≠ c.role ∨ e.content ≠ c.content
      · rw [firstMismatchIdx, if_pos hm] at h
        have hk : k = 0 := by
          have := Option.some.inj (Option.some.inj h)
          omega
        subst hk
        exact ⟨fun i hi => absurd hi (by omega), by simp, by simp⟩
      · rw [firstMismatchIdx, if_neg hm] at h
        obtain ⟨r, hr, hmap⟩ := Option.map_eq_some'.mp h
        cases r with
        | none => simp at hmap
        | some k2 =>
          have hk : k = k2 + 1 := by
            simp only [Option.map_some'] at hmap
            have := Option.some.inj hmap
            omega
          subst hk
          obtain ⟨hpre, h1, h2⟩ := ih cs k2 hr
          refine ⟨?_, by simp; omega, by simp; omega⟩
          intro i hi
          cases i with
          | zero =>
            have hec : e = c := by
              rw [not_or, not_not, not_not] at hm
              cases e; cases c
              simp only [MsgDict.mk.injEq]
              exact hm
            simp [hec]
          | succ i2 => simpa using hpre i2 (by omega)

theorem computeTruncateFrom_pos (ex inc : List MsgDict) (k : Nat)
    (h : computeTruncateFrom ex inc = some (k : Int)) (hk : 0 < k) :
    firstMismatchIdx ex inc = some (some k) := by
  unfold computeTruncateFrom at h
  obtain ⟨r, hr, hval⟩ := Option.map_eq_some'.mp h
  cases r with
  | none =>
    by_cases he : ex.isEmpty <;> simp [he] at hval <;> omega
  | some k2 =>
    have hval2 : (k2 : Int) = (k : Int) := hval
    have hkk : k2 = k := by omega
    rw [hr, hkk]

theorem mkBlockProps_congr (ex inc : List MsgDict) (j : Nat)
    (h : ex.get? j = inc.get? j) : mkBlockProps ex j = mkBlockProps inc j := by
  unfold mkBlockProps
  rw [h]

theorem readExisting_ladder (msgs : List MsgDict) :
    ∀ (n a : Nat), a + n = msgs.length →
      readExistingMsgs ((List.range' a n).map (fun k => mkBlockProps msgs k)) =
        some (msgs.drop a) := by
  intro n
  induction n with
  | zero =>
    intro a ha
    have hd : msgs.drop a = [] := by
      have haa : a = msgs.length := by omega
      rw [haa, List.drop_length]
    rw [hd]
    rfl
  | succ m ih =>
    intro a ha
    rw [List.range'_succ, List.map_cons]
    have hlt : a < msgs.length := by omega
    have hget : msgs.get? a = some msgs[a] := by
      rw [List.get?_eq_getElem?]
      exact List.getElem?_eq_getElem hlt
    have hrole : (mkBlockProps msgs a).role = some msgs[a].role := by
      unfold mkBlockProps
      rw [hget]
      rfl
    have hcontent : (mkBlockProps msgs a).content = some msgs[a].content := by
      unfold mkBlockProps
      rw [hget]
      rfl
    rw [readExistingMsgs, hrole, hcontent]
    dsimp only
    rw [ih (a + 1) (by omega)]
    rw [List.drop_eq_getElem_cons hlt]
    rfl

theorem readExisting_blocksOf (msgs : List MsgDict) :
    readExistingMsgs (blocksOf msgs) = some msgs := by
  have h := readExisting_ladder msgs msgs.length 0 (by omega)
  simpa using h

theorem filter_not_contains_elems_lt (l : List Nat) (b m : Nat)
    (h : ∀ x ∈ l, x < b) :
    l.filter (fun n => !((List.range' b m).contains n)) = l := by
  apply List.filter_eq_self.mpr
  intro x hx
  rw [range'_contains]
  simp only [Bool.not_eq_true', decide_eq_false_iff_not]
  have hxb := h x hx
  omega

theorem pairs_filter_del {β : Type} (s : Nat) (v : Nat → β) (L k d : Nat)
    (hkL : k ≤ L) (hd : L ≤ k + d) :
    ((List.range' 0 L).map (fun j => (s + j, v j))).filter
      (fun p => !((List.range' (s + k) d).contains p.1)) =
    (List.range' 0 k).map (fun j => (s + j, v j)) := by
  rw [List.filter_map]
  have hcong : (List.range' 0 L).filter
      ((fun (p : Nat × β) => !((List.range' (s + k) d).contains p.1)) ∘
        (fun j => (s + j, v j))) =
      (List.range' 0 L).filter (fun j => decide (j < k)) := by
    apply List.filter_congr
    intro j hj
    show (!((List.range' (s + k) d).contains (s + j))) = decide (j < k)
    rw [range'_contains]
    by_cases hc : j < k
    · have hno : ¬(s + k ≤ s + j ∧ s + j < s + k + d) := by omega
      simp [hno, hc]
    · have hyes : s + k ≤ s + j ∧ s + j < s + k + d := by
        have hjm := List.mem_range'_1.mp hj
        omega
      simp [hyes, hc]
  rw [hcong, range'_filter_decide_lt]
  have hmin : min (k - 0) L = k := by omega
  rw [hmin]

theorem ladder_edges_filter_del (s m k d : Nat) (hk : 1 ≤ k)
    (hkm : k - 1 ≤ m) (hmd : m + 1 ≤ k + d) :
    ((List.range' s m).map (fun i => (i, i + 1))).filter
      (fun e => !((List.range' (s + k) d).contains e.1) &&
        !((List.range' (s + k) d).contains e.2)) =
    (List.range' s (k - 1)).map (fun i => (i, i + 1)) := by
  rw [List.filter_map]
  have hcong : (List.range' s m).filter
      ((fun (e : Nat × Nat) => !((List.range' (s + k) d).contains e.1) &&
        !((List.range' (s + k) d).contains e.2)) ∘ (fun i => (i, i + 1))) =
      (List.range' s m).filter (fun i => decide (i < s + (k - 1))) := by
    apply List.filter_congr
    intro i hi
    have him := List.mem_range'_1.mp hi
    show (!((List.range' (s + k) d).contains i) &&
      !((List.range' (s + k) d).contains (i + 1))) = decide (i < s + (k - 1))
    rw [range'_contains, range'_contains]
    by_cases hc : i + 1 < s + k
    · have h1 : ¬(s + k ≤ i ∧ i < s + k + d) := by omega
      have h2 : ¬(s + k ≤ i + 1 ∧ i + 1 < s + k + d) := by omega
      have h3 : i < s + (k - 1) := by omega
      simp [h1, h2, h3]
    · have h2 : s + k ≤ i + 1 ∧ i + 1 < s + k + d := by omega
      have h3 : ¬(i < s + (k - 1)) := by omega
      simp [h2, h3]
  rw [hcong, range'_filter_decide_lt]
  have hmin : min (s + (k - 1) - s) m = k - 1 := by omega
  rw [hmin]

theorem firstEdges_of_append (g1 : Graph) (inode s : Nat)
    (E0 : List (Nat × Nat))
    (hfm : g1.firstMessage = E0 ++ [(inode, s)])
    (hE0 : E0.filter (fun e => e.1 == inode) = []) :
    firstEdges g1 inode = [s] := by
  unfold firstEdges
  rw [hfm, List.filter_append, hE0, List.nil_append]
  simp

theorem range'_getLast (s n : Nat) (h : 1 ≤ n) :
    (List.range' s n).getLast? = some (s + (n - 1)) := by
  obtain ⟨m, rfl⟩ : ∃ m, n = m + 1 := ⟨n - 1, by omega⟩
  rw [List.range'_concat, List.getLast?_concat]
  simp

/-- Walk of a graph whose chain for `inode` is the ladder
`s, s + 1, ..., s + k - 1`. -/
theorem walk_of_ladder (g1 : Graph) (inode s k : Nat)
    (E1 : List (Nat × Nat)) (hk : 1 ≤ k)
    (hfe : firstEdges g1 inode = [s])
    (hisn : g1.isNext = E1 ++ (List.range' s (k - 1)).map (fun i => (i, i + 1)))
    (hE1 : ∀ e ∈ E1, e.1 < s)
    (hfuel : k - 1 ≤ g1.blocks.length) :
    interactionWalk g1 inode = List.range' s k := by
  have hnt : ∀ j, j < k →
      nextTargets g1 (s + j) = if j + 1 < k then [s + (j + 1)] else [] := by
    intro j hj
    unfold nextTargets
    rw [hisn, List.filter_append,
      filter_fst_eq_nil_of_lt E1 (s + j)
        (fun x hx => by have hxx := hE1 x hx; omega),
      List.nil_append, ladder_filter]
    by_cases hc : j + 1 < k
    · have hcc : s ≤ s + j ∧ s + j < s + (k - 1) := by omega
      rw [if_pos hcc, if_pos hc]
      rfl
    · have hcc : ¬(s ≤ s + j ∧ s + j < s + (k - 1)) := by omega
      rw [if_neg hcc, if_neg hc]
      rfl
  have hmap : (List.range' 0 k).map (fun j => s + j) = List.range' s k := by
    have h1 := List.map_add_range' s 0 k 1
    simpa using h1
  have hsp : straightPath g1 (List.range' s k) := by
    rw [← hmap]
    apply straight_of_fun g1 (fun j => s + j) k 0
    intro j _ hj2
    rw [Nat.zero_add] at hj2 ⊢
    exact hnt j hj2
  obtain ⟨k2, rfl⟩ : ∃ k2, k = k2 + 1 := ⟨k - 1, by omega⟩
  unfold interactionWalk
  rw [hfe]
  show walkFrom g1 g1.blocks.length s = _
  rw [List.range'_succ]
  apply walkFrom_straight
  · rw [← List.range'_succ]
    exact hsp
  · simp only [List.length_map, List.length_range']
    omega

theorem walk_after_build (g : Graph) (iid : String) (inode : Nat)
    (msgs : List MsgDict) (hb : idsBounded g = true)
    (hfind : findInteraction g iid = some inode)
    (hfirst : firstEdges g inode = [])
    (hne : msgs ≠ []) :
    interactionWalk (add_messages_to_interaction_from_top g iid msgs) inode =
      List.range' g.nextId msgs.length := by
  obtain ⟨hbi, hbb, hbf, hbn⟩ := bounded_parts hb
  have hge := add_from_top_eq g iid inode msgs hfind hne
  have hfilter0 : g.firstMessage.filter (fun e => e.1 == inode) = [] := by
    have hmap := hfirst
    unfold firstEdges at hmap
    exact List.map_eq_nil_iff.mp hmap
  apply walk_of_ladder _ inode g.nextId msgs.length g.isNext
  · have := exists_succ_len msgs hne
    omega
  · apply firstEdges_of_append _ inode g.nextId g.firstMessage
    · rw [hge]
    · exact hfilter0
  · rw [hge]
  · intro e he
    exact (hbn e he).1
  · rw [hge]
    simp only [List.length_append, List.length_map, List.length_range']
    omega

/-- Explicit shape of the store after building `existing` from the top and
then truncating at position `k ≥ 1`: the first `k` blocks and their `k - 1`
links survive; every block at position `≥ k` and every edge touching one is
gone; nothing else changes (`nextId` stays at its post-build value). -/
theorem truncate_after_build_eq (g : Graph) (iid : String) (inode : Nat)
    (existing : List MsgDict) (k : Nat)
    (hb : idsBounded g = true)
    (hfind : findInteraction g iid = some inode)
    (hfirst : firstEdges g inode = [])
    (hk1 : 1 ≤ k) (hkL : k < existing.length) :
    truncate_messages_from
        (add_messages_to_interaction_from_top g iid existing) iid k =
      { g with
        blocks := g.blocks ++
          (List.range' 0 k).map
            (fun j => (g.nextId + j, mkBlockProps existing j))
        firstMessage := g.firstMessage ++ [(inode, g.nextId)]
        isNext := g.isNext ++
          (List.range' g.nextId (k - 1)).map (fun i => (i, i + 1))
        nextId := g.nextId + existing.length } := by
  have hne : existing ≠ [] := by
    intro h
    rw [h] at hkL
    simp at hkL
  have hge := add_from_top_eq g iid inode existing hfind hne
  have hwalk := walk_after_build g iid inode existing hb hfind hfirst hne
  obtain ⟨hbi, hbb, hbf, hbn⟩ := bounded_parts hb
  obtain ⟨hbm, hbd, hbh, hbinc, hbis, hbms, hbocc, hbcu⟩ := bounded_rest hb
  have hinode : inode < g.nextId := by
    unfold findInteraction at hfind
    obtain ⟨p, hp, hfst⟩ := Option.map_eq_some'.mp hfind
    have hplt := hbi p (List.mem_of_find?_eq_some hp)
    omega
  have hfind1 : findInteraction
      (add_messages_to_interaction_from_top g iid existing) iid =
      some inode := by
    unfold findInteraction at hfind ⊢
    rw [hge]
    exact hfind
  unfold truncate_messages_from
  rw [hfind1]
  dsimp only
  rw [hwalk]
  have hdrop : (List.range' g.nextId existing.length).drop k =
      List.range' (g.nextId + k) (existing.length - k) := by
    have hsplit : List.range' g.nextId k ++
        List.range' (g.nextId + k) (existing.length - k) =
        List.range' g.nextId existing.length := by
      have happ := List.range'_append g.nextId k (existing.length - k) 1
      have h1 : g.nextId + 1 * k = g.nextId + k := by omega
      have h2 : existing.length - k + k = existing.length := by omega
      rw [h1] at happ
      rw [happ, h2]
    rw [← hsplit,
      List.drop_append_of_le_length (by simp [List.length_range'])]
    have hdl : (List.range' g.nextId k).drop k = [] := by
      apply List.drop_eq_nil_of_le
      simp [List.length_range']
    rw [hdl, List.nil_append]
  rw [hdrop, hge]
  unfold removeNodes
  have hnn : g.nextId ≤ g.nextId + k := by omega
  congr 1
  · -- interactions
    exact filter_not_contains_keys_lt _ _ _
      (fun x hx => by have hxx := hbi x hx; omega)
  · -- blocks
    rw [List.filter_append,
      filter_not_contains_keys_lt g.blocks _ _
        (fun x hx => by have hxx := hbb x hx; omega),
      pairs_filter_del g.nextId (fun j => mkBlockProps existing j)
        existing.length k (existing.length - k) (by omega) (by omega)]
  · -- memories
    exact filter_not_contains_keys_lt _ _ _
      (fun x hx => by have hxx := hbm x hx; omega)
  · -- dates
    exact filter_not_contains_keys_lt _ _ _
      (fun x hx => by have hxx := hbd x hx; omega)
  · -- hadInteraction
    exact filter_not_contains_elems_lt _ _ _
      (fun x hx => by have hxx := hbh x hx; omega)
  · -- firstMessage
    rw [List.filter_append,
      filter_not_contains_edges_lt g.firstMessage _ _
        (fun x hx => by have hxx := hbf x hx; omega)]
    have hone : [(inode, g.nextId)].filter
        (fun e => !((List.range' (g.nextId + k) (existing.length - k)).contains e.1) &&
          !((List.range' (g.nextId + k) (existing.length - k)).contains e.2)) =
        [(inode, g.nextId)] := by
      apply List.filter_eq_self.mpr
      intro x hx
      simp only [List.mem_singleton] at hx
      subst hx
      rw [range'_contains, range'_contains]
      simp only [Bool.and_eq_true, Bool.not_eq_true', decide_eq_false_iff_not]
      omega
    rw [hone]
  · -- isNext
    rw [List.filter_append,
      filter_not_contains_edges_lt g.isNext _ _
        (fun x hx => by have hxx := hbn x hx; omega),
      ladder_edges_filter_del g.nextId (existing.length - 1) k
        (existing.length - k) hk1 (by omega) (by omega)]
  · -- interactionSource
    exact filter_not_contains_edges_lt _ _ _
      (fun x hx => by have hxx := hbis x hx; omega)
  · -- messageSource
    exact filter_not_contains_edges_lt _ _ _
      (fun x hx => by have hxx := hbms x hx; omega)
  · -- hasOccurrenceOn
    exact filter_not_contains_edges_lt _ _ _
      (fun x hx => by have hxx := hbocc x hx; omega)
  · -- contraryUpdate
    exact filter_not_contains_edges_lt _ _ _
      (fun x hx => by have hxx := hbcu x hx; omega)
  · -- includes
    exact filter_not_contains_elems_lt _ _ _
      (fun x hx => by have hxx := hbinc x hx; omega)

/-- Explicit shape of the store after the truncated chain is extended with
`incoming[k:]`: the appended blocks carry positions `k, k + 1, ...` with
`incoming`'s contents, chained from the surviving tail block. -/
theorem append_after_truncate_eq (g : Graph) (iid : String) (inode : Nat)
    (existing incoming : List MsgDict) (k : Nat)
    (hb : idsBounded g = true)
    (hfind : findInteraction g iid = some inode)
    (hfirst : firstEdges g inode = [])
    (hk1 : 1 ≤ k) (hkL : k < existing.length) (hki : k < incoming.length) :
    append_messages_to_interaction
      { g with
        blocks := g.blocks ++
          (List.range' 0 k).map
            (fun j => (g.nextId + j, mkBlockProps existing j))
        firstMessage := g.firstMessage ++ [(inode, g.nextId)]
        isNext := g.isNext ++
          (List.range' g.nextId (k - 1)).map (fun i => (i, i + 1))
        nextId := g.nextId + existing.length } iid incoming =
      { g with
        blocks := (g.blocks ++
          (List.range' 0 k).map
            (fun j => (g.nextId + j, mkBlockProps existing j))) ++
          (List.range' 0 (incoming.length - k)).map
            (fun j => (g.nextId + existing.length + j,
              mkBlockProps incoming (k + j)))
        firstMessage := g.firstMessage ++ [(inode, g.nextId)]
        isNext := (g.isNext ++
          (List.range' g.nextId (k - 1)).map (fun i => (i, i + 1))) ++
          chainLinks ((g.nextId + (k - 1)) ::
            List.range' (g.nextId + existing.length) (incoming.length - k))
        nextId := g.nextId + existing.length + (incoming.length - k) } := by
  obtain ⟨hbi, hbb, hbf, hbn⟩ := bounded_parts hb
  have hfil0 : g.firstMessage.filter (fun e => e.1 == inode) = [] := by
    have hmap := hfirst
    unfold firstEdges at hmap
    exact List.map_eq_nil_iff.mp hmap
  set g2 : Graph :=
    { g with
      blocks := g.blocks ++
        (List.range' 0 k).map
          (fun j => (g.nextId + j, mkBlockProps existing j))
      firstMessage := g.firstMessage ++ [(inode, g.nextId)]
      isNext := g.isNext ++
        (List.range' g.nextId (k - 1)).map (fun i => (i, i + 1))
      nextId := g.nextId + existing.length } with hg2
  have hfind2 : findInteraction g2 iid = some inode := hfind
  have hwalk2 : interactionWalk g2 inode = List.range' g.nextId k := by
    apply walk_of_ladder g2 inode g.nextId k g.isNext hk1
    · exact firstEdges_of_append g2 inode g.nextId g.firstMessage rfl hfil0
    · rfl
    · intro e he
      exact (hbn e he).1
    · show k - 1 ≤ (g.blocks ++
        (List.range' 0 k).map
          (fun j => (g.nextId + j, mkBlockProps existing j))).length
      rw [List.length_append, List.length_map, List.length_range']
      omega
  have hfb : findBlock g2 (g.nextId + (k - 1)) =
      some (mkBlockProps existing (k - 1)) := by
    unfold findBlock
    show ((g.blocks ++
        (List.range' 0 k).map
          (fun j => (g.nextId + j, mkBlockProps existing j))).find?
        (fun (p : Nat × BlockProps) => p.1 == g.nextId + (k - 1))).map
      (fun (p : Nat × BlockProps) => p.2) = _
    rw [List.find?_append,
      find_fst_none_of_lt g.blocks _
        (fun x hx => by have hxx := hbb x hx; omega),
      Option.none_or,
      pair_find_hit g.nextId (fun j => mkBlockProps existing j) k 0 (k - 1)
        (by omega) (by omega)]
    rfl
  unfold append_messages_to_interaction
  rw [hfind2]
  dsimp only
  rw [hwalk2, range'_getLast g.nextId k hk1]
  dsimp only
  rw [hfb]
  dsimp only
  have hmp : (mkBlockProps existing (k - 1)).msg_position = k - 1 := rfl
  rw [hmp]
  have hkk : k - 1 + 1 = k := by omega
  rw [hkk]
  have hlenIdx : (cypherRange k (incoming.length - 1)).length =
      incoming.length - k := by
    unfold cypherRange
    rw [List.length_range']
    omega
  rw [hlenIdx, List.range_eq_range']
  rw [map_fst_pairs (g.nextId + existing.length)
    (fun j => mkBlockProps incoming (k + j)) 0 (incoming.length - k)]
  rw [Nat.add_zero]
  congr 1
  rw [List.length_map, List.length_range']

/-- Core of claim C6: after building `existing`, truncating at the first
mismatch `k ≥ 1` and appending `incoming`, the chain reads back as exactly
`incoming`, and the first `k` block nodes are physically untouched. -/
theorem truncate_replace_read (g : Graph) (iid : String) (inode : Nat)
    (existing incoming : List MsgDict) (k : Nat)
    (hb : idsBounded g = true)
    (hfind : findInteraction g iid = some inode)
    (hfirst : firstEdges g inode = [])
    (hk1 : 1 ≤ k) (hkL : k < existing.length) (hki : k < incoming.length)
    (hpre : ∀ i, i < k → existing.get? i = incoming.get? i) :
    get_interaction_messages
        (append_messages_to_interaction
          (truncate_messages_from
            (add_messages_to_interaction_from_top g iid existing) iid k)
          iid incoming) iid = blocksOf incoming ∧
    (∀ j, j < k → (g.nextId + j, mkBlockProps existing j) ∈
      (append_messages_to_interaction
        (truncate_messages_from
          (add_messages_to_interaction_from_top g iid existing) iid k)
        iid incoming).blocks) := by
  obtain ⟨hbi, hbb, hbf, hbn⟩ := bounded_parts hb
  have hfil0 : g.firstMessage.filter (fun e => e.1 == inode) = [] := by
    have hmap := hfirst
    unfold firstEdges at hmap
    exact List.map_eq_nil_iff.mp hmap
  rw [truncate_after_build_eq g iid inode existing k hb hfind hfirst hk1 hkL,
    append_after_truncate_eq g iid inode existing incoming k hb hfind hfirst
      hk1 hkL hki]
  have hcl : chainLinks ((g.nextId + (k - 1)) ::
      List.range' (g.nextId + existing.length) (incoming.length - k)) =
      (g.nextId + (k - 1), g.nextId + existing.length) ::
        (List.range' (g.nextId + existing.length)
          (incoming.length - k - 1)).map (fun i => (i, i + 1)) := by
    obtain ⟨n2, hn2⟩ : ∃ n2, incoming.length - k = n2 + 1 :=
      ⟨incoming.length - k - 1, by omega⟩
    rw [hn2, List.range'_succ]
    show (g.nextId + (k - 1), g.nextId + existing.length) ::
      chainLinks ((g.nextId + existing.length) ::
        List.range' (g.nextId + existing.length + 1) n2) = _
    rw [← List.range'_succ, chainLinks_range']
    rfl
  rw [hcl]
  constructor
  · apply read_eq_of_fun _ iid inode
      (fun j => if j < k then g.nextId + j
        else g.nextId + existing.length + (j - k))
      (fun j => mkBlockProps incoming j) incoming.length (by omega)
    · exact hfind
    · -- the first edge is block f 0 = g.nextId
      have hfe : firstEdges
          { g with
            blocks := (g.blocks ++
              (List.range' 0 k).map
                (fun j => (g.nextId + j, mkBlockProps existing j))) ++
              (List.range' 0 (incoming.length - k)).map
                (fun j => (g.nextId + existing.length + j,
                  mkBlockProps incoming (k + j)))
            firstMessage := g.firstMessage ++ [(inode, g.nextId)]
            isNext := (g.isNext ++
              (List.range' g.nextId (k - 1)).map (fun i => (i, i + 1))) ++
              ((g.nextId + (k - 1), g.nextId + existing.length) ::
                (List.range' (g.nextId + existing.length)
                  (incoming.length - k - 1)).map (fun i => (i, i + 1)))
            nextId := g.nextId + existing.length + (incoming.length - k) }
          inode = [g.nextId] :=
        firstEdges_of_append _ inode g.nextId g.firstMessage rfl hfil0
      rw [hfe]
      have h0k : (0 : Nat) < k := hk1
      rw [if_pos h0k, Nat.add_zero]
    · intro j hj
      unfold nextTargets
      dsimp only
      rw [List.filter_append, List.filter_append, List.filter_cons]
      dsimp only
      rw [filter_fst_eq_nil_of_lt g.isNext _
        (fun x hx => by
          have hxx := (hbn x hx).1
          by_cases hjk : j < k
          · rw [if_pos hjk]; omega
          · rw [if_neg hjk]; omega)]
      by_cases hjk : j < k
      · rw [if_pos hjk]
        by_cases hj1 : j + 1 < k
        · -- inside the surviving prefix ladder
          have hbq : (g.nextId + (k - 1) == g.nextId + j) = false := by
            simp only [beq_eq_false_iff_ne, ne_eq]
            omega
          rw [hbq, if_neg Bool.false_ne_true, ladder_filter]
          have hcc : g.nextId ≤ g.nextId + j ∧
              g.nextId + j < g.nextId + (k - 1) := by omega
          rw [if_pos hcc, ladder_filter]
          have hcc2 : ¬(g.nextId + existing.length ≤ g.nextId + j ∧
              g.nextId + j < g.nextId + existing.length +
                (incoming.length - k - 1)) := by omega
          rw [if_neg hcc2]
          have hjN : j + 1 < incoming.length := by omega
          rw [if_pos hjN, if_pos hj1]
          rfl
        · -- the junction block: j = k - 1
          have hjeq : j = k - 1 := by omega
          have hbq : (g.nextId + (k - 1) == g.nextId + j) = true := by
            simp only [Nat.beq_eq_true_eq]
            omega
          rw [hbq, if_pos rfl, ladder_filter]
          have hcc : ¬(g.nextId ≤ g.nextId + j ∧
              g.nextId + j < g.nextId + (k - 1)) := by omega
          rw [if_neg hcc, ladder_filter]
          have hcc2 : ¬(g.nextId + existing.length ≤ g.nextId + j ∧
              g.nextId + j < g.nextId + existing.length +
                (incoming.length - k - 1)) := by omega
          rw [if_neg hcc2]
          have hjN : j + 1 < incoming.length := by omega
          rw [if_pos hjN]
          have hj1k : ¬(j + 1 < k) := by omega
          rw [if_neg hj1k]
          have hsub : j + 1 - k = 0 := by omega
          rw [hsub, Nat.add_zero]
          rfl
      · -- inside the appended ladder
        rw [if_neg hjk]
        have hbq : (g.nextId + (k - 1) ==
            g.nextId + existing.length + (j - k)) = false := by
          simp only [beq_eq_false_iff_ne, ne_eq]
          omega
        rw [hbq, if_neg Bool.false_ne_true, ladder_filter]
        have hcc : ¬(g.nextId ≤ g.nextId + existing.length + (j - k) ∧
            g.nextId + existing.length + (j - k) <
              g.nextId + (k - 1)) := by omega
        rw [if_neg hcc, ladder_filter]
        by_cases hj1 : j + 1 < incoming.length
        · have hcc2 : g.nextId + existing.length ≤
              g.nextId + existing.length + (j - k) ∧
              g.nextId + existing.length + (j - k) <
                g.nextId + existing.length +
                  (incoming.length - k - 1) := by omega
          rw [if_pos hcc2, if_pos hj1]
          have hj1k : ¬(j + 1 < k) := by omega
          rw [if_neg hj1k]
          have hstep : g.nextId + existing.length + (j - k) + 1 =
              g.nextId + existing.length + (j + 1 - k) := by omega
          show [g.nextId + existing.length + (j - k) + 1] = _
          rw [hstep]
        · have hcc2 : ¬(g.nextId + existing.length ≤
              g.nextId + existing.length + (j - k) ∧
              g.nextId + existing.length + (j - k) <
                g.nextId + existing.length +
                  (incoming.length - k - 1)) := by omega
          rw [if_neg hcc2, if_neg hj1]
          rfl
    · -- fuel
      show incoming.length - 1 ≤ ((g.blocks ++
          (List.range' 0 k).map
            (fun j => (g.nextId + j, mkBlockProps existing j))) ++
          (List.range' 0 (incoming.length - k)).map
            (fun j => (g.nextId + existing.length + j,
              mkBlockProps incoming (k + j)))).length
      rw [List.length_append, List.length_append, List.length_map,
        List.length_map, List.length_range', List.length_range']
      omega
    · intro j hj
      unfold findBlock
      dsimp only
      rw [List.find?_append, List.find?_append,
        find_fst_none_of_lt g.blocks _
          (fun x hx => by
            have hxx := hbb x hx
            by_cases hjk : j < k
            · rw [if_pos hjk]; omega
            · rw [if_neg hjk]; omega),
        Option.none_or]
      by_cases hjk : j < k
      · rw [if_pos hjk]
        rw [pair_find_hit g.nextId (fun j => mkBlockProps existing j) k 0 j
          (by omega) (by omega)]
        have hcongr : mkBlockProps existing j = mkBlockProps incoming j :=
          mkBlockProps_congr existing incoming j (hpre j hjk)
        show some (mkBlockProps existing j) = some (mkBlockProps incoming j)
        rw [hcongr]
      · rw [if_neg hjk]
        rw [pair_find_miss g.nextId (fun j => mkBlockProps existing j) k 0
          (g.nextId + existing.length + (j - k))
          (fun t ht1 ht2 => by omega)]
        rw [Option.none_or]
        have hjn : j - k < 0 + (incoming.length - k) := by omega
        rw [pair_find_hit (g.nextId + existing.length)
          (fun u => mkBlockProps incoming (k + u)) (incoming.length - k) 0
          (j - k) (by omega) hjn]
        have hkj : k + (j - k) = j := by omega
        show some (mkBlockProps incoming (k + (j - k))) = _
        rw [hkj]
  · intro j hj
    apply List.mem_append_left
    apply List.mem_append_right
    apply List.mem_map.mpr
    exact ⟨j, List.mem_range'_1.mpr ⟨by omega, by omega⟩, rfl⟩

/-! The metadata step of `update_tx` does not disturb the message chain. -/

theorem filterMap_fun_congr {α β : Type} (f1 f2 : α → Option β)
    (h : ∀ x, f1 x = f2 x) : ∀ l : List α, l.filterMap f1 = l.filterMap f2 := by
  intro l
  induction l with
  | nil => rfl
  | cons x xs ih => rw [List.filterMap_cons, List.filterMap_cons, h x, ih]

theorem metadata_components (g1 : Graph) (iid2 agentId date : String) :
    (update_interaction_metadata g1 iid2 agentId date).blocks = g1.blocks ∧
    (update_interaction_metadata g1 iid2 agentId date).firstMessage =
      g1.firstMessage ∧
    (update_interaction_metadata g1 iid2 agentId date).isNext = g1.isNext := by
  unfold update_interaction_metadata mergeDateNode
  split
  · exact ⟨rfl, rfl, rfl⟩
  · dsimp only
    split
    · split
      · exact ⟨rfl, rfl, rfl⟩
      · exact ⟨rfl, rfl, rfl⟩
    · split
      · exact ⟨rfl, rfl, rfl⟩
      · exact ⟨rfl, rfl, rfl⟩

theorem findInteraction_metadata (g1 : Graph) (iid iid2 agentId date : String) :
    findInteraction (update_interaction_metadata g1 iid2 agentId date) iid =
      findInteraction g1 iid := by
  have hint : (update_interaction_metadata g1 iid2 agentId date).interactions =
      g1.interactions ∨
      ∃ inode2,
        (update_interaction_metadata g1 iid2 agentId date).interactions =
        g1.interactions.map (fun p => if p.1 == inode2 then
          (p.1, { p.2 with updated_at := date, agent_id := agentId })
          else p) := by
    unfold update_interaction_metadata mergeDateNode
    split
    · exact Or.inl rfl
    · rename_i inode2 heq
      right
      refine ⟨inode2, ?_⟩
      dsimp only
      split
      · split
        · rfl
        · rfl
      · split
        · rfl
        · rfl
  rcases hint with h | ⟨inode2, h⟩
  · unfold findInteraction
    rw [h]
  · unfold findInteraction
    rw [h, List.find?_map]
    have hfun : ((fun (p : Nat × InteractionProps) =>
        p.2.interaction_id == iid) ∘
        (fun p => if p.1 == inode2 then
          (p.1, { p.2 with updated_at := date, agent_id := agentId })
          else p)) = (fun p => p.2.interaction_id == iid) := by
      funext p
      by_cases hp : (p.1 == inode2) = true
      · simp [Function.comp, hp]
      · simp [Function.comp, hp]
    rw [hfun]
    cases hfd : g1.interactions.find?
        (fun p => p.2.interaction_id == iid) with
    | none => rfl
    | some p =>
      show some (if (p.1 == inode2) = true then
          (p.1, { p.2 with updated_at := date, agent_id := agentId })
          else p).1 = some p.1
      by_cases hp : (p.1 == inode2) = true
      · rw [if_pos hp]
      · rw [if_neg hp]

theorem read_congr (g1 g2 : Graph) (iid : String)
    (hi : findInteraction g1 iid = findInteraction g2 iid)
    (hbk : g1.blocks = g2.blocks)
    (hfm : g1.firstMessage = g2.firstMessage)
    (hin : g1.isNext = g2.isNext) :
    get_interaction_messages g1 iid = get_interaction_messages g2 iid := by
  have hnt : ∀ b, nextTargets g1 b = nextTargets g2 b := by
    intro b
    unfold nextTargets
    rw [hin]
  have hwf : ∀ fuel b, walkFrom g1 fuel b = walkFrom g2 fuel b := by
    intro fuel
    induction fuel with
    | zero => intro b; rfl
    | succ f ih =>
      intro b
      simp only [walkFrom, hnt b]
      cases nextTargets g2 b with
      | nil => rfl
      | cons c rest =>
        dsimp only
        rw [ih c]
  have hfbl : ∀ b, findBlock g1 b = findBlock g2 b := by
    intro b
    unfold findBlock
    rw [hbk]
  have hfe : ∀ n, firstEdges g1 n = firstEdges g2 n := by
    intro n
    unfold firstEdges
    rw [hfm]
  have hwalk : ∀ n, interactionWalk g1 n = interactionWalk g2 n := by
    intro n
    unfold interactionWalk
    rw [hfe n]
    cases firstEdges g2 n with
    | nil => rfl
    | cons b rest =>
      dsimp only
      rw [hbk, hwf g2.blocks.length b]
  unfold get_interaction_messages
  rw [hi]
  cases findInteraction g2 iid with
  | none => rfl
  | some n =>
    dsimp only
    rw [hwalk n]
    exact filterMap_fun_congr _ _ hfbl _

/-- With no new memories, `update_tx` is just the chain branch followed by
the metadata step, and always succeeds. -/
theorem update_tx_no_memories (iid agentId : String)
    (mi : MemoriesAndInteraction) (tf : Int) (cbOk : Bool) (h : Graph) :
    update_tx iid agentId mi tf [] [] cbOk h =
      .ok (update_interaction_metadata
        (if tf == -1 then append_messages_to_interaction h iid mi.interaction
         else if tf == 0 then
           add_messages_to_interaction_from_top h iid mi.interaction
         else append_messages_to_interaction
           (truncate_messages_from h iid tf.toNat) iid mi.interaction)
        iid agentId mi.interaction_date) := by
  unfold update_tx
  rfl

/-- C6: when the stored chain holds `existing` and the incoming transcript
first mismatches at `k > 0` (so `update_interaction_and_memories` computes
`truncate_from = k` and runs the truncate-then-append branch), the update
succeeds, every stored block at a position `< k` survives physically
untouched, the blocks at positions `≥ k` are replaced, and the chain
afterwards reads back as exactly the incoming transcript.  In particular
stored `[A,B,C]` with incoming `[A,B,D,E]` truncates at 2 and yields
`[A,B,D,E]` (see the witness). -/
theorem C6_truncate_and_replace (g : Graph) (iid agentId date : String)
    (inode : Nat) (existing incoming : List MsgDict) (k : Nat)
    (hb : idsBounded g = true)
    (hfind : findInteraction g iid = some inode)
    (hfirst : firstEdges g inode = [])
    (hdiff : computeTruncateFrom existing incoming = some ((k : Nat) : Int))
    (hk : 0 < k) :
    (update_interaction_and_memories
        (add_messages_to_interaction_from_top g iid existing) iid agentId
        { interaction := incoming, interaction_date := date
          memories := [], contrary_memories := [] } [] [] true).2 = true ∧
    get_interaction_messages
      (update_interaction_and_memories
        (add_messages_to_interaction_from_top g iid existing) iid agentId
        { interaction := incoming, interaction_date := date
          memories := [], contrary_memories := [] } [] [] true).1 iid =
      blocksOf incoming ∧
    (∀ j, j < k → (g.nextId + j, mkBlockProps existing j) ∈
      (update_interaction_and_memories
        (add_messages_to_interaction_from_top g iid existing) iid agentId
        { interaction := incoming, interaction_date := date
          memories := [], contrary_memories := [] } [] [] true).1.blocks) := by
  have hfm := computeTruncateFrom_pos existing incoming k hdiff hk
  obtain ⟨hpre, hkL, hki⟩ := firstMismatchIdx_some_spec existing incoming k hfm
  have hne : existing ≠ [] := by
    intro h
    rw [h] at hkL
    simp at hkL
  have hread1 := add_from_top_read g iid inode existing hb hfind hfirst hne
  have hrem : readExistingMsgs
      (get_interaction_messages
        (add_messages_to_interaction_from_top g iid existing) iid) =
      some existing := by
    rw [hread1]
    exact readExisting_blocksOf existing
  obtain ⟨hTR, hMem⟩ := truncate_replace_read g iid inode existing incoming k
    hb hfind hfirst hk hkL hki hpre
  unfold update_interaction_and_memories
  rw [hrem]
  dsimp only
  rw [hdiff]
  dsimp only
  unfold executeWrite
  rw [update_tx_no_memories]
  have hm1 : (((k : Nat) : Int) == -1) = false := by
    simp only [beq_eq_false_iff_ne, ne_eq]
    omega
  have hm0 : (((k : Nat) : Int) == 0) = false := by
    simp only [beq_eq_false_iff_ne, ne_eq]
    omega
  rw [hm1, hm0]
  rw [if_neg Bool.false_ne_true, if_neg Bool.false_ne_true,
    Int.toNat_natCast]
  dsimp only
  set gTR : Graph := append_messages_to_interaction
    (truncate_messages_from
      (add_messages_to_interaction_from_top g iid existing) iid k)
    iid incoming with hgTR
  obtain ⟨hmb, hmf, hmn⟩ := metadata_components gTR iid agentId date
  refine ⟨rfl, ?_, ?_⟩
  · rw [read_congr (update_interaction_metadata gTR iid agentId date) gTR iid
      (findInteraction_metadata gTR iid iid agentId date) hmb hmf hmn]
    exact hTR
  · intro j hj
    rw [hmb]
    exact hMem j hj

/-- C6 (witness): stored `[A,B,C]`, incoming `[A,B,D,E]` — truncation at 2,
the chain reads back as `[A,B,D,E]`, and blocks 0 and 1 survive. -/
theorem C6_truncate_and_replace_witness :
    (update_interaction_and_memories
        (add_messages_to_interaction_from_top c8Graph "i8"
          [⟨"user", "A"⟩, ⟨"user", "B"⟩, ⟨"user", "C"⟩]) "i8" "agent"
        { interaction := [⟨"user", "A"⟩, ⟨"user", "B"⟩, ⟨"user", "D"⟩,
            ⟨"user", "E"⟩]
          interaction_date := "2024-01-02"
          memories := [], contrary_memories := [] } [] [] true).2 = true ∧
    get_interaction_messages
      (update_interaction_and_memories
        (add_messages_to_interaction_from_top c8Graph "i8"
          [⟨"user", "A"⟩, ⟨"user", "B"⟩, ⟨"user", "C"⟩]) "i8" "agent"
        { interaction := [⟨"user", "A"⟩, ⟨"user", "B"⟩, ⟨"user", "D"⟩,
            ⟨"user", "E"⟩]
          interaction_date := "2024-01-02"
          memories := [], contrary_memories := [] } [] [] true).1 "i8" =
      blocksOf [⟨"user", "A"⟩, ⟨"user", "B"⟩, ⟨"user", "D"⟩, ⟨"user", "E"⟩] := by
  have h := C6_truncate_and_replace c8Graph "i8" "agent" "2024-01-02" 0
    [⟨"user", "A"⟩, ⟨"user", "B"⟩, ⟨"user", "C"⟩]
    [⟨"user", "A"⟩, ⟨"user", "B"⟩, ⟨"user", "D"⟩, ⟨"user", "E"⟩] 2
    (by decide) (by decide) (by decide) (by decide) (by decide)
  exact ⟨h.1, h.2.1⟩
